import Mathlib

/-!
Verification of the figma-to-react CLI scripts.

JavaScript strings are modelled as `List Char` (`Str`), JSON numbers as `ℚ`,
absent (undefined) fields as `none`, and JS exceptions as `Option`/`Except`
results.  Each definition below is a shallow embedding of the function of the
same name in the repository's sources; the file from which a definition is
taken is named in its doc comment.
-/

namespace FigmaToReact

abbrev Str := List Char

/-- The whitespace characters relevant to JavaScript `String.prototype.trim`
(space, tab, line feed, vertical tab, form feed, carriage return). -/
def isWs (c : Char) : Bool :=
  c = ' ' || c = '\t' || c = '\n' || c = '\x0b' || c = '\x0c' || c = '\r'

/-- JS `s.trimStart()`. -/
def trimL (s : Str) : Str := s.dropWhile isWs

/-- JS `s.trimEnd()`. -/
def trimR (s : Str) : Str := (s.reverse.dropWhile isWs).reverse

/-- JS `s.trim()`. -/
def trim (s : Str) : Str := trimR (trimL s)

/-- JS `s.split('\n')`. -/
def splitNl : Str → List Str
  | [] => [[]]
  | c :: rest => if c = '\n' then [] :: splitNl rest else (splitNl rest).modifyHead (fun l => c :: l)

/-- JS `lines.join('\n')`. -/
def joinNl : List Str → Str
  | [] => []
  | [x] => x
  | x :: y :: rest => x ++ '\n' :: joinNl (y :: rest)

/-- The number of newline characters of a string: a string that ends in a
newline renders as `countNl` display lines. -/
def countNl (s : Str) : Nat := s.count '\n'

/-- ASCII lower-casing, the effect of JS `toLowerCase` on the names handled
here. -/
def lowerStr (s : Str) : Str := s.map Char.toLower

/-- Decimal digits of a natural number, most significant first. -/
def natDigits (n : Nat) : Str := Nat.toDigits 10 n

/-- JS `Math.round` (round half toward positive infinity). -/
def jsRound (q : ℚ) : ℤ := ⌊q + 1/2⌋

/-- Decimal expansion of a fractional part `0 ≤ q < 1`, with fuel; JS prints
the numbers arising here (finite decimal fractions) exactly this way. -/
def fracDigits : Nat → ℚ → Str
  | 0, _ => []
  | fuel + 1, q =>
    let r := q * 10
    let d := ⌊r⌋
    let rest := r - (d : ℚ)
    natDigits d.toNat ++ (if rest = 0 then [] else fracDigits fuel rest)

/-- Template interpolation of a non-negative number, JS style. -/
def jsNumPos (q : ℚ) : Str :=
  let ip := ⌊q⌋
  let fp := q - (ip : ℚ)
  natDigits ip.toNat ++ (if fp = 0 then [] else '.' :: fracDigits 20 fp)

/-- Template interpolation `${q}` of a number in JS, for the finitely
representable decimals that occur in this code base. -/
def jsNum (q : ℚ) : Str :=
  if q < 0 then '-' :: jsNumPos (-q) else jsNumPos q

/-- `${x}` for a possibly absent number: JS prints `undefined` for an absent
field. -/
def jsNumOpt : Option ℚ → Str
  | some q => jsNum q
  | none => "undefined".toList

/-- `${x}` for a possibly absent string. -/
def jsStrOpt : Option Str → Str
  | some s => s
  | none => "undefined".toList

/-- `a || b` for a possibly absent string: the empty string is falsy. -/
def jsOrStr (a : Option Str) (b : Str) : Str :=
  match a with
  | some s => if s = [] then b else s
  | none => b

/-- Truthiness of a possibly absent string field. -/
def strTruthy : Option Str → Bool
  | some s => !s.isEmpty
  | none => false

/-- Truthiness of a possibly absent numeric field (`0` is falsy). -/
def numTruthy : Option ℚ → Bool
  | some q => !(q = 0 : Bool)
  | none => false

/-- JS `"  ".repeat(level)`: `2 * level` space characters. -/
def indentOf (level : Nat) : Str := List.replicate (2 * level) ' '

/-- The last line of a line list (empty for an empty list). -/
def lastD0 : List Str → Str
  | [] => []
  | [x] => x
  | _ :: y :: rest => lastD0 (y :: rest)

/-! ## The design-file data model (spec §3, the fetched Figma node tree) -/

/-- A solid or image paint of a node's `fills` list. -/
structure Fill where
  type : Str
  color : Option (ℚ × ℚ × ℚ)
  opacity : Option ℚ
deriving DecidableEq

/-- The `style` block of a text node. -/
structure TextStyle where
  fontFamily : Option Str
  fontSize : Option ℚ
  fontWeight : Option ℚ
  lineHeightPx : Option ℚ
  letterSpacing : Option ℚ
  textAlignHorizontal : Option Str
deriving DecidableEq

/-- `absoluteBoundingBox`. -/
structure Box where
  x : ℚ
  y : ℚ
  width : ℚ
  height : ℚ
deriving DecidableEq

/-- A node of the fetched design tree.  Fields the scripts read; an absent
(undefined) field is `none`.  `constraints` holds the JSON serialization that
`JSON.stringify` would produce for the node's constraints object. -/
structure DesignNode where
  id : Str
  name : Option Str
  type : Option Str
  children : List DesignNode
  fills : Option (List Fill)
  style : Option TextStyle
  absoluteBoundingBox : Option Box
  constraints : Option Str
  characters : Option Str
  paddingLeft : Option ℚ
  paddingRight : Option ℚ
  paddingTop : Option ℚ
  paddingBottom : Option ℚ
  cornerRadius : Option ℚ
  layoutMode : Option Str
  itemSpacing : Option ℚ
  primaryAxisAlignItems : Option Str
  counterAxisAlignItems : Option Str

theorem sizeOf_children_lt (n : DesignNode) : sizeOf n.children < sizeOf n := by
  cases n; simp; omega

/-- The nodes of a forest in depth-first (preorder) order. -/
def allNodesList : List DesignNode → List DesignNode
  | [] => []
  | n :: rest => n :: (allNodesList n.children ++ allNodesList rest)
termination_by l => sizeOf l
decreasing_by
  all_goals simp
  all_goals (have hsz := sizeOf_children_lt n; omega)

/-- The nodes of a tree in depth-first order. -/
def allNodes (n : DesignNode) : List DesignNode := allNodesList [n]

/-- Preorder traversal of a forest paired with each node's depth. -/
def preDepthList : List DesignNode → Nat → List (DesignNode × Nat)
  | [], _ => []
  | n :: rest, d => (n, d) :: (preDepthList n.children (d + 1) ++ preDepthList rest d)
termination_by l => sizeOf l
decreasing_by
  all_goals simp
  all_goals (have hsz := sizeOf_children_lt n; omega)

/-- The number of nodes of a forest. -/
def nodeCountList : List DesignNode → Nat
  | [] => 0
  | n :: rest => 1 + nodeCountList n.children + nodeCountList rest
termination_by l => sizeOf l
decreasing_by
  all_goals simp
  all_goals (have hsz := sizeOf_children_lt n; omega)

/-- The number of nodes of a tree. -/
def nodeCount (n : DesignNode) : Nat := nodeCountList [n]

/-! ## Utility functions (figma-to-react-sonet.js lines 21-23, part_002) -/

def isAsciiAlnum (c : Char) : Bool :=
  ('a' ≤ c && c ≤ 'z') || ('A' ≤ c && c ≤ 'Z') || ('0' ≤ c && c ≤ '9')

def isAsciiAlpha (c : Char) : Bool :=
  ('a' ≤ c && c ≤ 'z') || ('A' ≤ c && c ≤ 'Z')

/-- `sanitizeComponentName` (figma-to-react-sonet.js lines 21-23, identical in
part_002): `name.replace(/[^a-zA-Z0-9]/g, '').replace(/^[^a-zA-Z]/, 'Component')`.
The second replace substitutes the text `Component` for the first character
when that character is not a letter. -/
def sanitizeComponentName (name : Str) : Str :=
  match name.filter isAsciiAlnum with
  | [] => []
  | c :: rest => if isAsciiAlpha c then c :: rest else "Component".toList ++ rest

/-! ## The Tree Summarizer of figma-to-react.js (lines 36-44)

`extractNodeSummary(node, level)`: one line per node, then the children at
`level + 1`.  An absent `name`/`type` interpolates as the text `undefined`;
an absent `children` field iterates over nothing, like an empty list. -/

mutual

def extractNodeSummaryBasic (node : DesignNode) (level : Nat) : Str :=
  (indentOf level ++ "- ".toList ++ jsStrOpt node.name ++ " (".toList
      ++ jsStrOpt node.type ++ ")\n".toList)
    ++ extractNodeSummaryBasicKids node.children (level + 1)
termination_by sizeOf node
decreasing_by exact sizeOf_children_lt node

def extractNodeSummaryBasicKids (cs : List DesignNode) (level : Nat) : Str :=
  match cs with
  | [] => []
  | c :: rest => extractNodeSummaryBasic c level ++ extractNodeSummaryBasicKids rest level
termination_by sizeOf cs
decreasing_by
  all_goals simp
  all_goals omega

end

/-! ## The Style Extractor of figma-to-react-sonet.js (lines 194-256) -/

/-- `a || b` for a possibly absent number field (`0` is falsy). -/
def jsOrNum (a : Option ℚ) (b : ℚ) : ℚ :=
  match a with
  | some q => if q = 0 then b else q
  | none => b

/-- `${i}` for the integers produced by `Math.round`. -/
def jsIntStr (i : ℤ) : Str :=
  if i < 0 then '-' :: natDigits i.natAbs else natDigits i.toNat

/-- The template
`rgba(${Math.round(color.r * 255)}, ${Math.round(color.g * 255)}, ${Math.round(color.b * 255)}, ${opacity})`
shared by extractStylesForAI (sonet line 211) and extractStyles (part_002
line 77). -/
def rgbaStr (r g b opacity : ℚ) : Str :=
  "rgba(".toList ++ jsIntStr (jsRound (r * 255)) ++ ", ".toList
    ++ jsIntStr (jsRound (g * 255)) ++ ", ".toList
    ++ jsIntStr (jsRound (b * 255)) ++ ", ".toList
    ++ jsNum opacity ++ ")".toList

/-- The `node.characters` annotation (sonet lines 200-203). -/
def aiTextPart (node : DesignNode) (indent : Str) : Str :=
  if strTruthy node.characters then
    indent ++ "// TEXT: \"".toList ++ (node.characters.getD []) ++ "\"\n".toList
  else []

/-- The first-fill background annotation (sonet lines 205-214). -/
def aiFillPart (node : DesignNode) (indent : Str) : Str :=
  match node.fills with
  | some (fill :: _) =>
    if fill.type = "SOLID".toList then
      match fill.color with
      | some (r, g, b) =>
        indent ++ "// Background: ".toList ++ rgbaStr r g b (jsOrNum fill.opacity 1) ++ ['\n']
      | none => []
    else []
  | _ => []

/-- The text-style annotations (sonet lines 216-222). -/
def aiStylePart (node : DesignNode) (indent : Str) : Str :=
  match node.style with
  | some st =>
    (if strTruthy st.fontFamily then
      indent ++ "// Font: ".toList ++ st.fontFamily.getD [] ++ ['\n'] else [])
    ++ (if numTruthy st.fontSize then
      indent ++ "// Font Size: ".toList ++ jsNum (st.fontSize.getD 0) ++ "px\n".toList else [])
    ++ (if numTruthy st.fontWeight then
      indent ++ "// Font Weight: ".toList ++ jsNum (st.fontWeight.getD 0) ++ ['\n'] else [])
    ++ (if strTruthy st.textAlignHorizontal then
      indent ++ "// Text Align: ".toList ++ st.textAlignHorizontal.getD [] ++ ['\n'] else [])
  | none => []

/-- The bounding-box annotations (sonet lines 224-229). -/
def aiBoxPart (node : DesignNode) (indent : Str) : Str :=
  match node.absoluteBoundingBox with
  | some box =>
    (indent ++ "// Position: x=".toList ++ jsNum box.x ++ "px, y=".toList
      ++ jsNum box.y ++ "px\n".toList)
    ++ (indent ++ "// Dimensions: ".toList ++ jsNum box.width ++ "px × ".toList
      ++ jsNum box.height ++ "px\n".toList)
  | none => []

/-- The serialized-constraints annotation (sonet lines 231-234). -/
def aiConstraintsPart (node : DesignNode) (indent : Str) : Str :=
  match node.constraints with
  | some cs => indent ++ "// Constraints: ".toList ++ cs ++ ['\n']
  | none => []

/-- The padding annotation (sonet lines 236-239): present when at least one
side is truthy, with absent sides rendered through `|| 0`. -/
def aiPaddingPart (node : DesignNode) (indent : Str) : Str :=
  if numTruthy node.paddingLeft || numTruthy node.paddingRight
      || numTruthy node.paddingTop || numTruthy node.paddingBottom then
    indent ++ "// Padding: ".toList ++ jsNum (jsOrNum node.paddingTop 0) ++ "px ".toList
      ++ jsNum (jsOrNum node.paddingRight 0) ++ "px ".toList
      ++ jsNum (jsOrNum node.paddingBottom 0) ++ "px ".toList
      ++ jsNum (jsOrNum node.paddingLeft 0) ++ "px\n".toList
  else []

/-- The corner-radius annotation (sonet lines 241-244, an
`!== undefined` check). -/
def aiCornerPart (node : DesignNode) (indent : Str) : Str :=
  match node.cornerRadius with
  | some r => indent ++ "// Border Radius: ".toList ++ jsNum r ++ "px\n".toList
  | none => []

/-- The auto-layout annotations (sonet lines 246-253); inside this block an
absent padding side prints as the text `undefined`. -/
def aiLayoutPart (node : DesignNode) (indent : Str) : Str :=
  if strTruthy node.layoutMode then
    (indent ++ "// Layout Mode: ".toList ++ node.layoutMode.getD [] ++ ['\n'])
    ++ (if numTruthy node.itemSpacing then
      indent ++ "// Item Spacing: ".toList ++ jsNum (node.itemSpacing.getD 0) ++ "px\n".toList else [])
    ++ (if node.paddingLeft.isSome then
      indent ++ "// Padding: ".toList ++ jsNumOpt node.paddingTop ++ "px ".toList
        ++ jsNumOpt node.paddingRight ++ "px ".toList
        ++ jsNumOpt node.paddingBottom ++ "px ".toList
        ++ jsNumOpt node.paddingLeft ++ "px\n".toList else [])
    ++ (if strTruthy node.primaryAxisAlignItems then
      indent ++ "// Main Axis: ".toList ++ node.primaryAxisAlignItems.getD [] ++ ['\n'] else [])
    ++ (if strTruthy node.counterAxisAlignItems then
      indent ++ "// Cross Axis: ".toList ++ node.counterAxisAlignItems.getD [] ++ ['\n'] else [])
  else []

/-- `extractStylesForAI(node, level)` from figma-to-react-sonet.js lines
194-256: comment-style annotations for the fields present on the node,
concatenated in source order (each `styleInfo +=` group above is one part
function). -/
def extractStylesForAI (node : DesignNode) (level : Nat) : Str :=
  let indent := indentOf level
  aiTextPart node indent ++ aiFillPart node indent ++ aiStylePart node indent
    ++ aiBoxPart node indent ++ aiConstraintsPart node indent
    ++ aiPaddingPart node indent ++ aiCornerPart node indent ++ aiLayoutPart node indent

/-! ## The Tree Summarizer of figma-to-react-sonet.js (lines 175-192)

One line per node with `Unnamed`/`Unknown` placeholders, the node's style
annotations at `level + 1`, then the children.  (The source's
`if (styleInfo) summary += styleInfo` appends nothing exactly when
`styleInfo` is empty, which plain concatenation also does.) -/

mutual

def extractNodeSummary (node : DesignNode) (level : Nat) : Str :=
  (indentOf level ++ "- ".toList ++ jsOrStr node.name ("Unnamed".toList) ++ " (".toList
      ++ jsOrStr node.type ("Unknown".toList) ++ ")\n".toList)
    ++ extractStylesForAI node (level + 1)
    ++ extractNodeSummaryKids node.children (level + 1)
termination_by sizeOf node
decreasing_by exact sizeOf_children_lt node

def extractNodeSummaryKids (cs : List DesignNode) (level : Nat) : Str :=
  match cs with
  | [] => []
  | c :: rest => extractNodeSummary c level ++ extractNodeSummaryKids rest level
termination_by sizeOf cs
decreasing_by
  all_goals simp
  all_goals omega

end

/-! ## The Style Extractor of part_002 (`extractStyles`, lines 66-124):
CSS-like blocks keyed by a class selector derived from the node name. -/

/-- `${className ? `.${className}` : ""}`. -/
def selOf (className : Str) : Str :=
  if className = [] then [] else '.' :: className

/-- `(child.name || 'element').toLowerCase().replace(/[^a-z0-9]/g, "-")`. -/
def cssClassOf (child : DesignNode) : Str :=
  (lowerStr (jsOrStr child.name ("element".toList))).map
    (fun ch => if ('a' ≤ ch && ch ≤ 'z') || ('0' ≤ ch && ch ≤ '9') then ch else '-')

/-- The background-color block of part_002's `extractStyles` (lines 71-82;
the source opens the selector block without closing it). -/
def cssFillPart (node : DesignNode) (className : Str) : Str :=
  match node.fills with
  | some (fill :: _) =>
    if fill.type = "SOLID".toList then
      match fill.color with
      | some (r, g, b) =>
        selOf className ++ " \x7b\n".toList
          ++ "  background-color: ".toList ++ rgbaStr r g b (jsOrNum fill.opacity 1) ++ ";\n".toList
      | none => []
    else []
  | _ => []

/-- The text-style block (part_002 lines 85-99). -/
def cssStylePart (node : DesignNode) (className : Str) : Str :=
  match node.style with
  | some st =>
    selOf className ++ " \x7b\n".toList
    ++ (if strTruthy st.fontFamily then
      "  font-family: \"".toList ++ st.fontFamily.getD [] ++ "\";\n".toList else [])
    ++ (if numTruthy st.fontSize then
      "  font-size: ".toList ++ jsNum (st.fontSize.getD 0) ++ "px;\n".toList else [])
    ++ (if numTruthy st.fontWeight then
      "  font-weight: ".toList ++ jsNum (st.fontWeight.getD 0) ++ ";\n".toList else [])
    ++ (if numTruthy st.lineHeightPx then
      "  line-height: ".toList ++ jsNum (st.lineHeightPx.getD 0) ++ "px;\n".toList else [])
    ++ (if numTruthy st.letterSpacing then
      "  letter-spacing: ".toList ++ jsNum (st.letterSpacing.getD 0) ++ "px;\n".toList else [])
    ++ (if strTruthy st.textAlignHorizontal then
      "  text-align: ".toList ++ lowerStr (st.textAlignHorizontal.getD []) ++ ";\n".toList else [])
    ++ "\x7d\n\n".toList
  | none => []

/-- The dimensions block (part_002 lines 102-107). -/
def cssBoxPart (node : DesignNode) (className : Str) : Str :=
  match node.absoluteBoundingBox with
  | some box =>
    selOf className ++ " \x7b\n".toList
      ++ "  width: ".toList ++ jsNum box.width ++ "px;\n".toList
      ++ "  height: ".toList ++ jsNum box.height ++ "px;\n".toList
      ++ "\x7d\n\n".toList
  | none => []

/-- The corner-radius block (part_002 lines 110-114, a truthiness check). -/
def cssCornerPart (node : DesignNode) (className : Str) : Str :=
  if numTruthy node.cornerRadius then
    selOf className ++ " \x7b\n".toList
      ++ "  border-radius: ".toList ++ jsNum (node.cornerRadius.getD 0) ++ "px;\n".toList
      ++ "\x7d\n\n".toList
  else []

mutual

def extractStyles (node : DesignNode) (className : Str) : Str :=
  cssFillPart node className ++ cssStylePart node className
    ++ cssBoxPart node className ++ cssCornerPart node className
    ++ extractStylesKids node.children
termination_by sizeOf node
decreasing_by exact sizeOf_children_lt node

def extractStylesKids (cs : List DesignNode) : Str :=
  match cs with
  | [] => []
  | c :: rest => extractStyles c (cssClassOf c) ++ extractStylesKids rest
termination_by sizeOf cs
decreasing_by
  all_goals simp
  all_goals omega

end


/-- The `systemPrompts` template string exported by src/systemPrompts.js
(braces written as hex escapes). -/
def systemPrompts : Str :=
  "
You are an expert full-stack UI engineer and AI code generator, specializing in converting visual designs into modular, production-ready React code using TypeScript and modern styling solutions.

🚨 CRITICAL OUTPUT RULES - NEVER VIOLATE THESE:
- Emit ONLY raw code - NEVER use ```typescript, ```jsx, or ANY markdown fences
- NEVER include explanatory text, comments, or descriptions outside the actual code
- NEVER say \"Here's the code\", \"This implementation\", \"Required packages\", or similar explanations
- Start IMMEDIATELY with import statements, export statements, or code declarations
- End IMMEDIATELY after the last meaningful code line
- If you include ANY non-code text, the entire generation fails
- ONE FILE PER REQUEST - generate only the specific file requested

## 🔁 Task Flow Overview:
1. Accept design specifications (Figma file ID, design mockups, or component descriptions)
2. Analyze visual elements, layout patterns, and component hierarchy
3. Generate modular React code using the specified styling framework
4. Structure files in the defined target architecture:
   - components/ComponentName/index.tsx
   - components/ComponentName/types/index.ts
   - components/ComponentName/hooks/useComponentName.ts

---

## ⚙️ General Code Guidelines:
- Use **React function components** with **strict TypeScript typing**
- Apply semantic naming for all components, hooks, and styled elements
- Import fonts (Poppins, Inter, etc.) only if not globally available
- Always use proper TypeScript interfaces and types - never `any`
- Implement responsive design patterns by default
- Follow modern React patterns (hooks, functional components, Context API)

---

## 📦 Import & Export Rules:
- Default export hooks: `export default useMyHook;` → `import useMyHook from './hooks/useMyHook';`
- Types should be named exports: `export interface MyProps` → `import \x7b MyProps \x7d from './types/types';`
- Component files should default export the component
- **Correct import paths:**
  - Types: `import \x7b ComponentProps \x7d from './types/types';`
  - Hooks: `import useComponent from './hooks/useComponent';`
  - Never use: `'./types'` or `'./useHook'` - always include full folder structure

---

## 🎨 Styling Framework Support:

### Material-UI (MUI):
- Use `@mui/material` components as building blocks
- **Primary styling approaches:**
  - `sx` prop for component-specific styles
  - `styled` API from `@emotion/styled` for reusable components
  - `makeStyles` hook for complex styling (legacy support)
- **Theme integration:**
  - Import: `import \x7b Theme \x7d from '@mui/material/styles';`
  - Use theme-aware styling: `theme.palette`, `theme.spacing()`, `theme.breakpoints`
- Import icons from `@mui/icons-material`
- Leverage MUI's built-in variants before custom styling
- **NEVER import custom theme files** - use MUI's default theme

**Example MUI styled component:**
```
const StyledContainer = styled(Box)((\x7b theme \x7d) => (\x7b
  display: 'flex',
  padding: theme.spacing(2),
  backgroundColor: theme.palette.background.paper,
\x7d));
```

### Tailwind CSS:
- Use utility classes for all styling
- Apply responsive prefixes: `sm:`, `md:`, `lg:`, `xl:`
- Use semantic color classes and consistent spacing
- Implement hover/focus states with utility modifiers
- Create custom components using `@apply` directive when needed

### Styled-Components:
- Use `styled-components` library with TypeScript interfaces
- Implement theme provider for consistent design system
- Create reusable styled components with proper prop interfaces
- Use template literals for dynamic styling

### CSS-in-JS (Emotion):
- Use `@emotion/react` and `@emotion/styled`
- Implement theme-based styling with TypeScript support
- Create styled components with semantic naming
- It should get all layput classes captured and assigned to right elements. 


### 🧠 Custom Hook Generation Principles:

### ✅ Context-Aware Hook Logic
- **Analyze component design patterns to determine functionality:**
  - Interactive elements → event handlers (onClick, onChange, onSubmit)
  - Data display → data fetching and state management
  - Form elements → validation and submission logic
  - Navigation elements → routing and navigation handlers
  - Async operations → loading, error, and success states
- **Create semantic, reusable business logic**
- **Match hook's return object to component's functional requirements**

### ✅ Type-Safe Implementation
- Define interfaces for:
  - Hook parameters and configuration
  - Internal state and data structures
  - Return values and handler functions
- Use generics for flexible, reusable hooks
- Avoid `any` - leverage TypeScript's inference and strict typing

### 🛡️ Robust Error Handling
- Implement proper error boundaries
- Use typed error handling:
  ```
  catch (error: unknown) \x7b
    if (error instanceof Error) \x7b
      setError(error.message);
    \x7d else \x7b
      setError('An unexpected error occurred');
    \x7d
  \x7d
  ```

### 🧼 Clean Architecture
- **Pure logic only** - no styling, JSX, or DOM manipulation
- Separate concerns: state management, API calls, business logic
- Return well-structured, typed objects for component consumption
- Use proper dependency management in effects and callbacks

### 📚 Comprehensive Documentation
- Include JSDoc with:
  - `@param` descriptions for all parameters
  - `@returns` description of return object
  - `@example` showing real component usage
- Document edge cases and error scenarios

---

## 🤖 Component Generation Strategy:

### Component Structure:
1. **Import statements** (React, styling framework, types, hooks)
2. **Styled components** (if using styled-components or emotion)
3. **Main component definition** with proper TypeScript interface
4. **Hook integration** with correct typing and error handling
5. **JSX implementation** with accessibility and responsive design
6. **Default export**

### Type Definition Strategy:
- **Component props interface:** `export interface ComponentNameProps`
- **Hook interfaces:** 
  - `export interface UseComponentNameProps` (parameters)
  - `export interface UseComponentNameReturn` (return object)
- **Data interfaces** for complex state and API responses
- **Event handler types** for callback functions
- **Enum definitions** for constant values

---

### Hook Generation Strategy:
- **Analyze design requirements** to determine necessary functionality
- **Implement semantic handlers** (handleSubmit, handleClick, handleChange)
- **Manage component state** (loading, error, data, UI state)
- **Handle side effects** (API calls, subscriptions, cleanup)
- **Return structured object** matching TypeScript interface

---

## 🚀 Performance & Modern React Patterns:
- Use `React.memo` for expensive components
- Implement proper `useCallback` and `useMemo` for optimization
- Use React 18+ features (Suspense, Concurrent Features)
- Apply proper dependency arrays in hooks
- Implement code splitting with React.lazy
- Use proper key props in lists and dynamic components

---

## 🎯 Accessibility & UX Standards:
- Use semantic HTML elements (`button`, `nav`, `main`, `article`)
- Implement proper ARIA attributes and roles
- Ensure keyboard navigation support
- Provide focus management and visual indicators
- Use sufficient color contrast ratios
- Include descriptive alt text for images
- Support screen readers and assistive technologies

---

## 🔄 Responsive Design Implementation:
- Mobile-first approach by default
- Use breakpoints consistently across styling framework
- Implement flexible grid systems
- Apply responsive typography scaling
- Handle touch interactions for mobile devices
- Optimize for various screen sizes and orientations

---

## 📋 Code Quality Standards:
- Follow consistent naming conventions
- Implement proper error boundaries
- Use ESLint and Prettier configurations
- Apply SOLID principles where applicable
- Handle edge cases and null/undefined values
- Implement proper loading and empty states

Remember: Output ONLY the requested code file. No explanations, no markdown formatting, no additional text. Generate production-ready, type-safe, accessible React components.".toList

/-! ## The Output Sanitizer (`cleanGeneratedCode`,
figma-to-react-sonet.js lines 290-319, identical in part_002 lines 151-180) -/

/-- Does the string begin with a markdown fence marker? -/
def startsFence (l : Str) : Bool := l.take 3 = "```".toList

def isLowerAZ (c : Char) : Bool := 'a' ≤ c && c ≤ 'z'

/-- What remains after one match of `/```[a-z]*\n?/` at the head. -/
def skipFence (l : Str) : Str :=
  match (l.drop 3).dropWhile isLowerAZ with
  | '\n' :: rest => rest
  | l1 => l1

/-- One pass of `content.replace(/```[a-z]*\n?/g, '')`, scanning left to
right; the fuel is the length of the string, enough because every step
consumes at least one character. -/
def pass1Go : Nat → Str → Str
  | 0, l => l
  | fuel + 1, l =>
    match l with
    | [] => []
    | c :: rest =>
      if startsFence (c :: rest) then pass1Go fuel (skipFence (c :: rest))
      else c :: pass1Go fuel rest

def removeFences1 (l : Str) : Str := pass1Go l.length l

/-- What remains after one match of `/```\n?/` at the head. -/
def skipFence2 (l : Str) : Str :=
  match l.drop 3 with
  | '\n' :: rest => rest
  | l1 => l1

/-- One pass of `cleaned.replace(/```\n?/g, '')`. -/
def pass2Go : Nat → Str → Str
  | 0, l => l
  | fuel + 1, l =>
    match l with
    | [] => []
    | c :: rest =>
      if startsFence (c :: rest) then pass2Go fuel (skipFence2 (c :: rest))
      else c :: pass2Go fuel rest

def removeFences2 (l : Str) : Str := pass2Go l.length l

/-- The keywords of the code-start regex
`/(^|\n)(import|export|interface|type|const|function|class)/m`. -/
def kwList : List Str :=
  ["import".toList, "export".toList, "interface".toList, "type".toList,
   "const".toList, "function".toList, "class".toList]

def startsKw (l : Str) : Bool := kwList.any (fun k => k.isPrefixOf l)

/-- `cleaned.search(...)` for the code-start regex: the index of the leftmost
position where either a line starts with a keyword (the `^` alternative,
matching at that index) or a newline is directly followed by a keyword (the
`\n` alternative, matching at the newline's index). -/
def searchAux : Bool → Str → Nat → Option Nat
  | _, [], _ => none
  | atLineStart, c :: rest, i =>
    if (atLineStart && startsKw (c :: rest)) || (c = '\n' && startsKw rest) then some i
    else searchAux (c = '\n') rest (i + 1)

def searchCodeStart (l : Str) : Option Nat := searchAux true l 0

/-- The test of the trailing-scan loop: a trimmed line that is non-empty, is
not a line comment, and does not match `/^(This|Required|Note:|The)/`. -/
def lineTest (l : Str) : Bool :=
  let t := trim l
  !t.isEmpty && !(("//".toList).isPrefixOf t)
    && !(["This".toList, "Required".toList, "Note:".toList, "The".toList].any
          (fun p => p.isPrefixOf t))

def findIdxFrom (p : Str → Bool) : List Str → Option Nat
  | [] => none
  | x :: rest => if p x then some 0 else (findIdxFrom p rest).map (· + 1)

/-- The `lastCodeLine` computed by the backwards loop: the greatest index
whose line passes `lineTest`, or `none` (`-1` in the source). -/
def lastCodeIdx (lines : List Str) : Option Nat :=
  (findIdxFrom lineTest lines.reverse).map (fun r => lines.length - 1 - r)

/-- `cleanGeneratedCode(content)` (figma-to-react-sonet.js lines 290-319):
strip fence markers, cut everything before the first recognized code
construct when the match index is positive, drop trailing prose lines, and
trim. -/
def cleanGeneratedCode (content : Str) : Str :=
  let cleaned1 := removeFences2 (removeFences1 content)
  let cleaned2 :=
    match searchCodeStart cleaned1 with
    | some i => if 0 < i then trim (cleaned1.drop i) else cleaned1
    | none => cleaned1
  let lines := splitNl cleaned2
  match lastCodeIdx lines with
  | some j => trim (joinNl (lines.take (j + 1)))
  | none => trim cleaned2

/-! ## The Image Harvester's candidate search (`findImageNodes`,
figma-to-react-sonet.js lines 136-173)

Reading `node.name.toLowerCase()` throws a `TypeError` when `name` is
absent, so the search returns `none` in that case; the accumulator models
the mutated `imageNodes` array. -/

def hasImageFill (node : DesignNode) : Bool :=
  match node.fills with
  | some fills => fills.any (fun fill => fill.type = "IMAGE".toList)
  | none => false

def shapeKws : List Str :=
  ["image".toList, "img".toList, "photo".toList, "picture".toList,
   "icon".toList, "logo".toList]

def instanceKws : List Str := ["image".toList, "icon".toList, "logo".toList]

def kwAnyOf (kws : List Str) (nodeName : Str) : Bool :=
  kws.any (fun k => decide (k <:+: nodeName))

/-- The `RECTANGLE`/`ELLIPSE` keyword check (lines 148-155). -/
def rectEllipseStep (node : DesignNode) (acc : List DesignNode) : Option (List DesignNode) :=
  if node.type = some ("RECTANGLE".toList) || node.type = some ("ELLIPSE".toList) then
    match node.name with
    | none => none
    | some nm => some (if kwAnyOf shapeKws (lowerStr nm) then acc ++ [node] else acc)
  else some acc

/-- The `INSTANCE`/`COMPONENT` keyword check (lines 158-163). -/
def instanceStep (node : DesignNode) (acc : List DesignNode) : Option (List DesignNode) :=
  if node.type = some ("INSTANCE".toList) || node.type = some ("COMPONENT".toList) then
    match node.name with
    | none => none
    | some nm => some (if kwAnyOf instanceKws (lowerStr nm) then acc ++ [node] else acc)
  else some acc

mutual

def findImageNodesGo (node : DesignNode) (acc : List DesignNode) : Option (List DesignNode) :=
  let acc1 := if hasImageFill node then acc ++ [node] else acc
  match rectEllipseStep node acc1 with
  | none => none
  | some acc2 =>
    match instanceStep node acc2 with
    | none => none
    | some acc3 => findImageNodesKids node.children acc3
termination_by sizeOf node
decreasing_by exact sizeOf_children_lt node

def findImageNodesKids (cs : List DesignNode) (acc : List DesignNode) : Option (List DesignNode) :=
  match cs with
  | [] => some acc
  | c :: rest =>
    match findImageNodesGo c acc with
    | none => none
    | some acc2 => findImageNodesKids rest acc2
termination_by sizeOf cs
decreasing_by
  all_goals simp
  all_goals omega

end

/-- `findImageNodes(node)` with the default empty accumulator. -/
def findImageNodes (node : DesignNode) : Option (List DesignNode) :=
  findImageNodesGo node []

/-! ## The Provider Adapter (spec §4.5)

The chat request each backend receives, as assembled by `runPrompt`. -/

structure Message where
  role : Str
  content : Str
deriving DecidableEq

/-- The request shapes of the two backends: the OpenAI chat-completion call
and the Anthropic messages call (whose `system` text is a separate top-level
field, absent entirely in the older script). -/
inductive ChatRequest where
  | openai (modelName : Str) (messages : List Message) (temperature : ℚ) (maxTokens : Option Nat)
  | claude (modelName : Str) (maxTokens : Nat) (messages : List Message) (system : Option Str)
deriving DecidableEq

/-- The request built by `runPrompt` of figma-to-react-sonet.js (lines
336-358, identical in part_002): OpenAI receives the message sequence as
passed; Claude receives `prompt.filter(msg => msg.role !== 'system')` with
the imported `systemPrompts` as the top-level `system` field. -/
def runPromptRequest (model : Str) (prompt : List Message) : Option ChatRequest :=
  if model = "OpenAI".toList then
    some (ChatRequest.openai ("gpt-4o-mini".toList) prompt (2/10) (some 2048))
  else if model = "Claude".toList then
    some (ChatRequest.claude ("claude-3-5-sonnet-20241022".toList) 4096
      (prompt.filter (fun msg => !(msg.role = "system".toList : Bool))) (some systemPrompts))
  else none

/-- The request built by `runPrompt` of figma-to-react.js (lines 100-116):
both backends receive the message sequence as passed; the Claude call has no
`system` field. -/
def runPromptRequestBasic (model : Str) (prompt : List Message) : Option ChatRequest :=
  if model = "OpenAI".toList then
    some (ChatRequest.openai ("gpt-4o-mini".toList) prompt (2/10) none)
  else if model = "Claude".toList then
    some (ChatRequest.claude ("claude-3-sonnet-20240229".toList) 2048 prompt none)
  else none


/-! ## The Image Harvester (`extractAndSaveImages`,
figma-to-react-sonet.js lines 55-134)

The two network operations — the batched image-URL resolution
(`GET /v1/images/${fileId}?ids=${nodeIds}&format=png&scale=2`) and the
per-image download — are modelled as an environment of fallible calls, and
the harvester also returns the list of network calls it performed.
`Date.now()` is the environment's clock; filesystem writes are not
modelled (a failing write is one more way `downloadImage` can fail).
The candidate search runs outside the `try`, so its exception (`none`)
propagates. -/

structure ImageImport where
  importName : Str
  fileName : Str
  relativePath : Str
  nodeId : Str
  nodeName : Str
deriving DecidableEq

inductive NetCall where
  | resolveImages (fileId : Str) (ids : Str)
  | downloadImage (url : Str)
deriving DecidableEq

structure HarvestEnv where
  resolveImages : Str → Str → Except Str (List (Str × Option Str))
  downloadImage : Str → Except Str Unit
  now : Nat

/-- `imageNodes.map(node => node.id).join(',')`. -/
def joinComma : List Str → Str
  | [] => []
  | [x] => x
  | x :: y :: rest => x ++ ',' :: joinComma (y :: rest)

/-- The `imageImports.push({...})` record of lines 106-112. -/
def mkImageImport (env : HarvestEnv) (node : DesignNode) (nodeId : Str) : ImageImport :=
  let imageName := sanitizeComponentName (jsOrStr node.name ("image_".toList ++ natDigits env.now))
  { importName := imageName
    fileName := imageName ++ ".png".toList
    relativePath := "./assets/".toList ++ imageName ++ ".png".toList
    nodeId := nodeId
    nodeName := jsOrStr node.name ("Unnamed".toList) }

/-- The `for (const [nodeId, imageUrl] of Object.entries(imageUrls))` loop
(lines 80-125): a falsy URL is skipped; a missing node makes `node.name`
throw, which the inner `catch` turns into a skip before any download; a
failing download is caught and skipped; a successful download appends one
`ImageImport`. -/
def harvestLoop (env : HarvestEnv) (imageNodes : List DesignNode) :
    List (Str × Option Str) → List ImageImport → List NetCall →
    List ImageImport × List NetCall
  | [], imports, calls => (imports, calls)
  | (nodeId, urlOpt) :: rest, imports, calls =>
    match urlOpt with
    | none => harvestLoop env imageNodes rest imports calls
    | some url =>
      if url = [] then harvestLoop env imageNodes rest imports calls
      else
        match imageNodes.find? (fun (n : DesignNode) => decide (n.id = nodeId)) with
        | none => harvestLoop env imageNodes rest imports calls
        | some node =>
          match env.downloadImage url with
          | .error _ => harvestLoop env imageNodes rest imports (calls ++ [NetCall.downloadImage url])
          | .ok _ =>
            harvestLoop env imageNodes rest (imports ++ [mkImageImport env node nodeId])
              (calls ++ [NetCall.downloadImage url])

/-- What the loop body produces for one entry, for stating theorems about
the loop: `none` when the entry is skipped, the pushed record otherwise. -/
def processEntry (env : HarvestEnv) (imageNodes : List DesignNode)
    (entry : Str × Option Str) : Option ImageImport :=
  match entry.2 with
  | none => none
  | some url =>
    if url = [] then none
    else
      match imageNodes.find? (fun (n : DesignNode) => decide (n.id = entry.1)) with
      | none => none
      | some node =>
        match env.downloadImage url with
        | .error _ => none
        | .ok _ => some (mkImageImport env node entry.1)

/-- The network calls the loop body performs for one entry. -/
def entryCalls (env : HarvestEnv) (imageNodes : List DesignNode)
    (entry : Str × Option Str) : List NetCall :=
  match entry.2 with
  | none => []
  | some url =>
    if url = [] then []
    else
      match imageNodes.find? (fun (n : DesignNode) => decide (n.id = entry.1)) with
      | none => []
      | some _ => [NetCall.downloadImage url]

/-- `extractAndSaveImages(fileId, nodes, ...)` (lines 55-134). -/
def extractAndSaveImages (env : HarvestEnv) (fileId : Str) (nodes : DesignNode) :
    Option (List ImageImport × List NetCall) :=
  match findImageNodes nodes with
  | none => none
  | some imageNodes =>
    if imageNodes.length = 0 then some ([], [])
    else
      let nodeIds := joinComma (imageNodes.map (fun n => n.id))
      match env.resolveImages fileId nodeIds with
      | .error _ => some ([], [NetCall.resolveImages fileId nodeIds])
      | .ok entries =>
        some (harvestLoop env imageNodes entries [] [NetCall.resolveImages fileId nodeIds])


/-! ## Derived predicates and concrete inputs used by the theorems below -/

/-- No occurrence of a markdown fence marker. -/
def fenceFree (s : Str) : Prop := ¬ ("```".toList <:+: s)

instance (s : Str) : Decidable (fenceFree s) := by
  unfold fenceFree; infer_instance

/-- The condition under which the `RECTANGLE`/`ELLIPSE` check pushes the
node (given its name is readable). -/
def rectCond (n : DesignNode) : Bool :=
  (n.type = some ("RECTANGLE".toList) || n.type = some ("ELLIPSE".toList))
    && (match n.name with
        | some nm => kwAnyOf shapeKws (lowerStr nm)
        | none => false)

/-- The condition under which the `INSTANCE`/`COMPONENT` check pushes the
node. -/
def instCond (n : DesignNode) : Bool :=
  (n.type = some ("INSTANCE".toList) || n.type = some ("COMPONENT".toList))
    && (match n.name with
        | some nm => kwAnyOf instanceKws (lowerStr nm)
        | none => false)

/-- The node qualifies under the checks `findImageNodesGo` actually performs. -/
def qualifies (n : DesignNode) : Bool :=
  hasImageFill n || rectCond n || instCond n

/-- A type for which `findImageNodes` reads `node.name.toLowerCase()`. -/
def readsName (n : DesignNode) : Bool :=
  n.type = some ("RECTANGLE".toList) || n.type = some ("ELLIPSE".toList)
    || n.type = some ("INSTANCE".toList) || n.type = some ("COMPONENT".toList)

/-- Every node of the tree that `findImageNodes` would call `toLowerCase` on
carries a name. -/
def namesOk (n : DesignNode) : Bool :=
  (allNodes n).all (fun m => !readsName m || m.name.isSome)

/-- The pushes the candidate search performs for one node, in order. -/
def candParts (n : DesignNode) : List DesignNode :=
  (if hasImageFill n then [n] else [])
    ++ (if rectCond n then [n] else [])
    ++ (if instCond n then [n] else [])

/-- The candidates `findImageNodes` pushes for one forest, in push order
(a node qualifying under several checks is pushed several times, as in the
source). -/
def collectCandidates : List DesignNode → List DesignNode
  | [] => []
  | n :: rest =>
    candParts n ++ collectCandidates n.children ++ collectCandidates rest
termination_by l => sizeOf l
decreasing_by
  all_goals simp
  all_goals (have hsz := sizeOf_children_lt n; omega)

/-- The selection rule exactly as claim C4 states it: an image fill, or a
rectangle / ellipse / instance / component whose display name contains one
of the six keywords (image, img, photo, picture, icon, logo),
case-insensitively. -/
def claimSelects (n : DesignNode) : Bool :=
  hasImageFill n
  || (readsName n
      && (match n.name with
          | some nm => kwAnyOf shapeKws (lowerStr nm)
          | none => false))

/-- The line the Tree Summarizer of figma-to-react.js renders for one node,
without its terminating newline. -/
def nodeLineBasic (n : DesignNode) (d : Nat) : Str :=
  indentOf d ++ "- ".toList ++ jsStrOpt n.name ++ " (".toList ++ jsStrOpt n.type ++ [')']

/-- The interpolation of the field contains no newline (an absent field
prints as `undefined`). -/
def noNlOpt : Option Str → Bool
  | some s => !(decide ('\n' ∈ s))
  | none => true

/-- Every name and type rendered in the tree's summary is newline-free, so
that one node renders as one line. -/
def goodNames (n : DesignNode) : Bool :=
  (allNodes n).all (fun m => noNlOpt m.name && noNlOpt m.type)

/-- A design node with every optional field absent. -/
def baseNode : DesignNode :=
  { id := [], name := none, type := none, children := [], fills := none,
    style := none, absoluteBoundingBox := none, constraints := none,
    characters := none, paddingLeft := none, paddingRight := none,
    paddingTop := none, paddingBottom := none, cornerRadius := none,
    layoutMode := none, itemSpacing := none,
    primaryAxisAlignItems := none, counterAxisAlignItems := none }

/-- A raw model response whose interior code line contains a fence marker
inside a string literal (claim C1's counterexample input). -/
def c1Input : Str :=
  "import a from 'b';\nconst s = \"```js\";\nexport default x;".toList

/-- A text node carrying literal text content (claim C2). -/
def c2Node : DesignNode :=
  { baseNode with name := some ("a".toList), type := some ("TEXT".toList),
                  characters := some ("hi".toList) }

/-- A child node for claim C2's witness tree. -/
def c2ChildNode : DesignNode :=
  { baseNode with name := some ("Child".toList), type := some ("TEXT".toList) }

/-- A two-node tree with newline-free names and types (claim C2's witness). -/
def c2WitnessNode : DesignNode :=
  { baseNode with name := some ("Root".toList), type := some ("FRAME".toList),
                  children := [c2ChildNode] }

/-- A node whose only style-relevant field is `paddingTop` (claim C3). -/
def c3Node : DesignNode :=
  { baseNode with paddingTop := some 5 }

/-- A node whose first fill is solid red with an absent opacity (claim C3's
opacity synthesis). -/
def c3FillNode : DesignNode :=
  { baseNode with fills := some [⟨"SOLID".toList, some (1, 0, 0), none⟩] }

/-- An auto-layout node with `paddingLeft` present and `paddingTop` absent
(claim C3's layout-block synthesis). -/
def c3LayoutNode : DesignNode :=
  { baseNode with layoutMode := some ("VERTICAL".toList), paddingLeft := some 4 }

/-- A node with an absent name and a present type (claim C6). -/
def c6NameNode : DesignNode :=
  { baseNode with type := some ("FRAME".toList) }

/-- A node with a present name and an absent type (claim C6). -/
def c6TypeNode : DesignNode :=
  { baseNode with name := some ("Hero".toList) }

/-- An instance node named `photo` with no fills (claim C4). -/
def c4Node : DesignNode :=
  { baseNode with name := some ("photo".toList), type := some ("INSTANCE".toList) }

/-- A node with a half-opaque red solid first fill (claim C7). -/
def c7Node : DesignNode :=
  { baseNode with fills := some [⟨"SOLID".toList, some (1, 0, 0), some (1/2)⟩] }

/-- A frame with no image candidates (claim C8). -/
def c8Node : DesignNode :=
  { baseNode with id := "1:1".toList, name := some ("Root".toList),
                  type := some ("FRAME".toList) }

def c8Env : HarvestEnv :=
  { resolveImages := fun _ _ => Except.error ("unreached".toList)
    downloadImage := fun _ => Except.ok ()
    now := 0 }

/-- Two image-fill nodes under one root (claim C9). -/
def c9NodeA : DesignNode :=
  { baseNode with id := "a".toList, name := some ("PhotoOne".toList),
                  fills := some [⟨"IMAGE".toList, none, none⟩] }

def c9NodeB : DesignNode :=
  { baseNode with id := "b".toList, name := some ("PhotoTwo".toList),
                  fills := some [⟨"IMAGE".toList, none, none⟩] }

def c9Root : DesignNode :=
  { baseNode with id := "r".toList, name := some ("Root".toList),
                  children := [c9NodeA, c9NodeB] }

/-- An environment whose batched resolution succeeds for both candidates and
whose download of the first candidate's URL throws (claim C9). -/
def c9Env : HarvestEnv :=
  { resolveImages := fun _ _ =>
      Except.ok [("a".toList, some ("urlA".toList)), ("b".toList, some ("urlB".toList))]
    downloadImage := fun url =>
      if url = "urlA".toList then Except.error ("boom".toList) else Except.ok ()
    now := 0 }


/-! ## Claim C10: invariants of `sanitizeComponentName` -/

/-- C10: every character of the output of `sanitizeComponentName` is an
ASCII letter or digit; a non-empty output starts with a letter; and when the
filtered name starts with a non-letter, the output begins with the literal
text `Component` followed by the rest of the filtered name. -/
theorem c10_sanitizeComponentName_invariants (name : Str) :
    (∀ c ∈ sanitizeComponentName name, isAsciiAlnum c = true) ∧
    (∀ c rest, sanitizeComponentName name = c :: rest → isAsciiAlpha c = true) ∧
    (∀ c rest, name.filter isAsciiAlnum = c :: rest → isAsciiAlpha c = false →
      sanitizeComponentName name = "Component".toList ++ rest) := by
  cases h : name.filter isAsciiAlnum with
  | nil =>
    refine ⟨?_, ?_, ?_⟩
    · intro c hc; simp [sanitizeComponentName, h] at hc
    · intro c rest hc; simp [sanitizeComponentName, h] at hc
    · intro c rest hc; simp [h] at hc
  | cons c rest =>
    have hmem : ∀ x ∈ c :: rest, isAsciiAlnum x = true := by
      intro x hx
      exact List.of_mem_filter (h ▸ hx)
    by_cases ha : isAsciiAlpha c = true
    · refine ⟨?_, ?_, ?_⟩
      · intro x hx
        rw [sanitizeComponentName, h] at hx
        simp only [ha, if_pos] at hx
        exact hmem x hx
      · intro c' rest' hc'
        rw [sanitizeComponentName, h] at hc'
        simp only [ha, if_pos] at hc'
        cases hc'; exact ha
      · intro c' rest' hc' hna
        injection hc' with h1 h2
        subst h1
        exact absurd ha (by simp [hna])
    · have hres : sanitizeComponentName name = "Component".toList ++ rest := by
        rw [sanitizeComponentName, h]
        simp [ha]
      refine ⟨?_, ?_, ?_⟩
      · intro x hx
        rw [hres] at hx
        rcases List.mem_append.mp hx with hx | hx
        · have hcomp : ∀ y ∈ ("Component".toList : Str), isAsciiAlnum y = true := by decide
          exact hcomp x hx
        · exact hmem x (List.mem_cons_of_mem c hx)
      · intro c' rest' hc'
        rw [hres] at hc'
        have : c' = 'C' := by
          have := congrArg (fun l => l.head?) hc'
          simpa using this.symm
        rw [this]; decide
      · intro c' rest' hc' _
        injection hc' with h1 h2
        subst h2
        exact hres

/-- Witness for C10 at the concrete input `1st icon!`. -/
theorem c10_witness :
    (∀ c ∈ sanitizeComponentName ("1st icon!".toList), isAsciiAlnum c = true) ∧
    sanitizeComponentName ("1st icon!".toList) = "Component".toList ++ "sticon".toList :=
  ⟨(c10_sanitizeComponentName_invariants ("1st icon!".toList)).1,
   (c10_sanitizeComponentName_invariants ("1st icon!".toList)).2.2 '1' ("sticon".toList)
     (by decide) (by decide)⟩

/-! ## Claim C5: the Provider Adapter's request reshaping -/

/-- C5 (amended): for a canonical message sequence — a leading system
message followed by non-system task messages — the `runPrompt` of
figma-to-react-sonet.js gives the OpenAI backend the sequence with the
instruction inline, and gives the Claude backend only the task messages with
the imported `systemPrompts` constant as the separate top-level `system`
field. -/
theorem c5_runPrompt_reshaping (sys : Message) (tasks : List Message)
    (hsys : sys.role = "system".toList)
    (htasks : ∀ m ∈ tasks, m.role ≠ "system".toList) :
    runPromptRequest ("OpenAI".toList) (sys :: tasks)
      = some (ChatRequest.openai ("gpt-4o-mini".toList) (sys :: tasks) (2/10) (some 2048)) ∧
    runPromptRequest ("Claude".toList) (sys :: tasks)
      = some (ChatRequest.claude ("claude-3-5-sonnet-20241022".toList) 4096 tasks
          (some systemPrompts)) := by
  constructor
  · rw [runPromptRequest, if_pos rfl]
  · have h1 : ¬ (("Claude".toList : Str) = "OpenAI".toList) := by decide
    rw [runPromptRequest, if_neg h1, if_pos rfl]
    have hfilter : (sys :: tasks).filter (fun msg => !(msg.role = "system".toList : Bool))
        = tasks := by
      rw [List.filter_cons, if_neg (by simp [hsys])]
      exact List.filter_eq_self.mpr (fun m hm => by simpa using htasks m hm)
    rw [hfilter]

/-- Witness for C5 at a concrete canonical sequence. -/
theorem c5_witness :
    runPromptRequest ("Claude".toList)
        [⟨"system".toList, systemPrompts⟩, ⟨"user".toList, "make a card".toList⟩]
      = some (ChatRequest.claude ("claude-3-5-sonnet-20241022".toList) 4096
          [⟨"user".toList, "make a card".toList⟩] (some systemPrompts)) :=
  (c5_runPrompt_reshaping ⟨"system".toList, systemPrompts⟩
      [⟨"user".toList, "make a card".toList⟩] rfl (by decide)).2

/-- Counterexample to C5 as stated: the `runPrompt` of figma-to-react.js
sends the Claude backend the instruction message inline in its message
sequence with no top-level system field, instead of reshaping. -/
theorem c5_counterexample :
    runPromptRequestBasic ("Claude".toList)
        [⟨"system".toList, "instructions".toList⟩, ⟨"user".toList, "hi".toList⟩]
      = some (ChatRequest.claude ("claude-3-sonnet-20240229".toList) 2048
          [⟨"system".toList, "instructions".toList⟩, ⟨"user".toList, "hi".toList⟩]
          none) := by
  decide

/-! ## Claim C8: the harvester with no candidates -/

/-- C8: when the candidate search finds no image nodes, the harvester
returns the empty import list and performs no network call. -/
theorem c8_empty_result_no_network (env : HarvestEnv) (fileId : Str) (nodes : DesignNode)
    (h : findImageNodes nodes = some []) :
    extractAndSaveImages env fileId nodes = some ([], []) := by
  simp [extractAndSaveImages, h]

/-- Witness for C8: a frame with no candidates, under an environment whose
network calls would be visible if made. -/
theorem c8_witness :
    extractAndSaveImages c8Env ("fileX".toList) c8Node = some ([], []) :=
  c8_empty_result_no_network c8Env ("fileX".toList) c8Node (by
    simp [findImageNodes, findImageNodesGo, findImageNodesKids, rectEllipseStep,
      instanceStep, hasImageFill, c8Node, baseNode])


/-! ## Number-rendering facts and infix helpers -/

theorem jsNum_zero : jsNum (0 : ℚ) = "0".toList := by
  rw [jsNum, if_neg (by norm_num), jsNumPos]
  norm_num [natDigits]
  rfl

theorem jsNum_five : jsNum (5 : ℚ) = "5".toList := by
  rw [jsNum, if_neg (by norm_num), jsNumPos]
  norm_num [natDigits]
  rfl

theorem jsNum_half : jsNum ((1 : ℚ)/2) = "0.5".toList := by
  rw [jsNum, if_neg (by norm_num), jsNumPos]
  norm_num
  rw [fracDigits]
  norm_num [natDigits]
  rfl

theorem rgba_red_half : rgbaStr 1 0 0 ((1 : ℚ)/2) = "rgba(255, 0, 0, 0.5)".toList := by
  rw [rgbaStr]
  have h255 : jsRound ((1 : ℚ) * 255) = 255 := by norm_num [jsRound]
  have h0 : jsRound ((0 : ℚ) * 255) = 0 := by norm_num [jsRound]
  rw [h255, h0, jsNum_half]
  decide

theorem jsNum_one : jsNum (1 : ℚ) = "1".toList := by
  rw [jsNum, if_neg (by norm_num), jsNumPos]
  norm_num [natDigits]
  rfl

theorem rgba_red_one : rgbaStr 1 0 0 1 = "rgba(255, 0, 0, 1)".toList := by
  rw [rgbaStr]
  have h255 : jsRound ((1 : ℚ) * 255) = 255 := by norm_num [jsRound]
  have h0 : jsRound ((0 : ℚ) * 255) = 0 := by norm_num [jsRound]
  rw [h255, h0, jsNum_one]
  decide

theorem infix_append_left (a : Str) {x y : Str} (h : x <:+: y) : x <:+: a ++ y := by
  obtain ⟨s, t, hst⟩ := h
  exact ⟨a ++ s, t, by rw [← hst]; simp [List.append_assoc]⟩

theorem infix_append_right {x y : Str} (b : Str) (h : x <:+: y) : x <:+: y ++ b := by
  obtain ⟨s, t, hst⟩ := h
  exact ⟨s, t ++ b, by rw [← hst]; simp [List.append_assoc]⟩

/-! ## Claim C6: placeholders for missing name and type -/

/-- C6 (amended): for every node with an absent name, the sonet summarizer's
line carries the literal `Unnamed` in the name position, and for every node
with an absent type it carries `Unknown` in the type position — each
independently of every other field; the summarizer of figma-to-react.js
interpolates the literal text `undefined` in the same positions instead.
All four are total functions of arbitrary nodes: neither summarizer fails. -/
theorem c6_placeholders (node : DesignNode) (level : Nat) :
    (node.name = none →
      (indentOf level ++ "- Unnamed (".toList) <+: extractNodeSummary node level) ∧
    (node.type = none →
      (indentOf level ++ "- ".toList ++ jsOrStr node.name ("Unnamed".toList)
        ++ " (Unknown)\n".toList) <+: extractNodeSummary node level) ∧
    (node.name = none →
      (indentOf level ++ "- undefined (".toList) <+: extractNodeSummaryBasic node level) ∧
    (node.type = none →
      (indentOf level ++ "- ".toList ++ jsStrOpt node.name
        ++ " (undefined)\n".toList) <+: extractNodeSummaryBasic node level) := by
  refine ⟨?_, ?_, ?_, ?_⟩
  · intro hn
    refine ⟨jsOrStr node.type ("Unknown".toList) ++ ")\n".toList
      ++ extractStylesForAI node (level + 1)
      ++ extractNodeSummaryKids node.children (level + 1), ?_⟩
    simp only [extractNodeSummary, hn, jsOrStr]
    simp [List.append_assoc]
  · intro ht
    refine ⟨extractStylesForAI node (level + 1)
      ++ extractNodeSummaryKids node.children (level + 1), ?_⟩
    simp only [extractNodeSummary, ht, jsOrStr]
    simp [List.append_assoc]
  · intro hn
    refine ⟨jsStrOpt node.type ++ ")\n".toList
      ++ extractNodeSummaryBasicKids node.children (level + 1), ?_⟩
    simp only [extractNodeSummaryBasic, hn, jsStrOpt]
    simp [List.append_assoc]
  · intro ht
    refine ⟨extractNodeSummaryBasicKids node.children (level + 1), ?_⟩
    simp only [extractNodeSummaryBasic, ht, jsStrOpt]
    simp [List.append_assoc]

/-- Witness for C6 at two concrete nodes: one with only the name absent,
one with only the type absent, in both summarizers. -/
theorem c6_witness :
    ("- Unnamed (".toList <+: extractNodeSummary c6NameNode 0) ∧
    ("- Hero (Unknown)\n".toList <+: extractNodeSummary c6TypeNode 0) ∧
    ("- undefined (".toList <+: extractNodeSummaryBasic c6NameNode 0) ∧
    ("- Hero (undefined)\n".toList <+: extractNodeSummaryBasic c6TypeNode 0) := by
  have h := c6_placeholders c6NameNode 0
  have h' := c6_placeholders c6TypeNode 0
  refine ⟨?_, ?_, ?_, ?_⟩
  · simpa [indentOf] using h.1 rfl
  · have hx := h'.2.1 rfl
    simpa [indentOf, c6TypeNode, baseNode, jsOrStr] using hx
  · simpa [indentOf] using h.2.2.1 rfl
  · have hx := h'.2.2.2 rfl
    simpa [indentOf, c6TypeNode, baseNode, jsStrOpt] using hx

/-- Counterexample to C6 as stated: the Tree Summarizer of figma-to-react.js
renders a nameless, typeless node as `- undefined (undefined)` — the literal
placeholder `Unnamed` appears nowhere in its output. -/
theorem c6_counterexample :
    extractNodeSummaryBasic baseNode 0 = "- undefined (undefined)\n".toList ∧
    ¬ ("Unnamed".toList <:+: extractNodeSummaryBasic baseNode 0) := by
  have h : extractNodeSummaryBasic baseNode 0 = "- undefined (undefined)\n".toList := by
    simp only [extractNodeSummaryBasic, extractNodeSummaryBasicKids, baseNode]
    decide
  exact ⟨h, by rw [h]; decide⟩

/-! ## Claim C3: omission of absent fields in the Style Extractor -/

/-- C3 (amended): for every node, the sonet Style Extractor's output is the
concatenation of its eight annotation groups, and each group is empty — the
annotation is omitted — whenever its field is absent on the node; a node
carrying none of the optional fields produces no annotation at all.  The
extractor does, however, synthesize defaults: a lone non-zero `paddingTop`
renders the three absent sides as `0`; a solid first fill with an absent
opacity renders with opacity `1` (in part_002's `extractStyles` too); and
inside an auto-layout block an absent `paddingTop` renders as the literal
text `undefined`. -/
theorem c3_absent_fields (node : DesignNode) (level : Nat) :
    (extractStylesForAI node level
      = aiTextPart node (indentOf level) ++ aiFillPart node (indentOf level)
        ++ aiStylePart node (indentOf level) ++ aiBoxPart node (indentOf level)
        ++ aiConstraintsPart node (indentOf level) ++ aiPaddingPart node (indentOf level)
        ++ aiCornerPart node (indentOf level) ++ aiLayoutPart node (indentOf level)) ∧
    (node.characters = none → aiTextPart node (indentOf level) = []) ∧
    (node.fills = none → aiFillPart node (indentOf level) = []) ∧
    (node.style = none → aiStylePart node (indentOf level) = []) ∧
    (node.absoluteBoundingBox = none → aiBoxPart node (indentOf level) = []) ∧
    (node.constraints = none → aiConstraintsPart node (indentOf level) = []) ∧
    (node.paddingLeft = none → node.paddingRight = none → node.paddingTop = none →
      node.paddingBottom = none → aiPaddingPart node (indentOf level) = []) ∧
    (node.cornerRadius = none → aiCornerPart node (indentOf level) = []) ∧
    (node.layoutMode = none → aiLayoutPart node (indentOf level) = []) ∧
    (∀ t : ℚ, node.paddingTop = some t → t ≠ 0 → node.paddingLeft = none →
      node.paddingRight = none → node.paddingBottom = none →
      aiPaddingPart node (indentOf level)
        = indentOf level ++ "// Padding: ".toList ++ jsNum t ++ "px 0px 0px 0px\n".toList) ∧
    (∀ fill rest r g b, node.fills = some (fill :: rest) → fill.type = "SOLID".toList →
      fill.color = some (r, g, b) → fill.opacity = none →
      aiFillPart node (indentOf level)
        = indentOf level ++ "// Background: ".toList ++ rgbaStr r g b 1 ++ ['\n']) ∧
    (∀ fill rest r g b cls, node.fills = some (fill :: rest) → fill.type = "SOLID".toList →
      fill.color = some (r, g, b) → fill.opacity = none →
      cssFillPart node cls
        = selOf cls ++ " \x7b\n".toList ++ "  background-color: ".toList
          ++ rgbaStr r g b 1 ++ ";\n".toList) ∧
    (∀ m p, node.layoutMode = some m → m ≠ [] → node.paddingLeft = some p →
      node.paddingTop = none →
      "// Padding: undefined".toList <:+: aiLayoutPart node (indentOf level)) ∧
    (node.characters = none → node.fills = none → node.style = none →
      node.absoluteBoundingBox = none → node.constraints = none →
      node.paddingLeft = none → node.paddingRight = none → node.paddingTop = none →
      node.paddingBottom = none → node.cornerRadius = none → node.layoutMode = none →
      extractStylesForAI node level = []) := by
  refine ⟨rfl, ?_, ?_, ?_, ?_, ?_, ?_, ?_, ?_, ?_, ?_, ?_, ?_, ?_⟩
  · intro h
    simp [aiTextPart, h, strTruthy]
  · intro h
    simp [aiFillPart, h]
  · intro h
    simp [aiStylePart, h]
  · intro h
    simp [aiBoxPart, h]
  · intro h
    simp [aiConstraintsPart, h]
  · intro h1 h2 h3 h4
    simp [aiPaddingPart, h1, h2, h3, h4, numTruthy]
  · intro h
    simp [aiCornerPart, h]
  · intro h
    simp [aiLayoutPart, h, strTruthy]
  · intro t hpt ht hpl hpr hpb
    have hd : (decide (t = 0)) = false := decide_eq_false ht
    simp [aiPaddingPart, hpt, hpl, hpr, hpb, numTruthy, jsOrNum, hd, if_neg ht,
      jsNum_zero, List.append_assoc]
  · intro fill rest r g b hf htp hc ho
    simp [aiFillPart, hf, htp, hc, ho, jsOrNum, List.append_assoc]
  · intro fill rest r g b cls hf htp hc ho
    simp [cssFillPart, hf, htp, hc, ho, jsOrNum, List.append_assoc]
  · intro m p hm hmne hpl hpt
    have hs : strTruthy node.layoutMode = true := by
      rw [hm]
      cases m with
      | nil => exact absurd rfl hmne
      | cons a t => rfl
    refine ⟨(indentOf level ++ "// Layout Mode: ".toList ++ node.layoutMode.getD [] ++ ['\n'])
        ++ (if numTruthy node.itemSpacing then
          indentOf level ++ "// Item Spacing: ".toList
            ++ jsNum (node.itemSpacing.getD 0) ++ "px\n".toList else [])
        ++ indentOf level,
      "px ".toList ++ jsNumOpt node.paddingRight ++ "px ".toList
        ++ jsNumOpt node.paddingBottom ++ "px ".toList
        ++ jsNumOpt node.paddingLeft ++ "px\n".toList
        ++ (if strTruthy node.primaryAxisAlignItems then
          indentOf level ++ "// Main Axis: ".toList
            ++ node.primaryAxisAlignItems.getD [] ++ ['\n'] else [])
        ++ (if strTruthy node.counterAxisAlignItems then
          indentOf level ++ "// Cross Axis: ".toList
            ++ node.counterAxisAlignItems.getD [] ++ ['\n'] else []), ?_⟩
    simp only [aiLayoutPart, hs, hpl, hpt, jsNumOpt]
    simp [List.append_assoc]
  · intro h1 h2 h3 h4 h5 h6 h7 h8 h9 h10 h11
    simp [extractStylesForAI, aiTextPart, aiFillPart, aiStylePart, aiBoxPart,
      aiConstraintsPart, aiPaddingPart, aiCornerPart, aiLayoutPart,
      h1, h2, h3, h4, h5, h6, h7, h8, h9, h10, h11, strTruthy, numTruthy]

/-- Witness for C3: a bare node yields no annotation; a node whose only
field is `paddingTop = 5` gets zeros for the absent sides; a solid red fill
with an absent opacity gets opacity 1 in both extractors; an auto-layout
node with an absent `paddingTop` prints the text `undefined`. -/
theorem c3_witness :
    extractStylesForAI baseNode 3 = [] ∧
    aiPaddingPart c3Node (indentOf 0) = "// Padding: 5px 0px 0px 0px\n".toList ∧
    aiFillPart c3FillNode (indentOf 0) = "// Background: rgba(255, 0, 0, 1)\n".toList ∧
    cssFillPart c3FillNode ("hero".toList)
      = ".hero \x7b\n  background-color: rgba(255, 0, 0, 1);\n".toList ∧
    "// Padding: undefined".toList <:+: aiLayoutPart c3LayoutNode (indentOf 0) := by
  have h := c3_absent_fields baseNode 3
  have h3 := c3_absent_fields c3Node 0
  have hf := c3_absent_fields c3FillNode 0
  have hl := c3_absent_fields c3LayoutNode 0
  refine ⟨h.2.2.2.2.2.2.2.2.2.2.2.2.2 rfl rfl rfl rfl rfl rfl rfl rfl rfl rfl rfl,
    ?_, ?_, ?_, ?_⟩
  · have hx := h3.2.2.2.2.2.2.2.2.2.1 5 rfl (by norm_num) rfl rfl rfl
    simpa [indentOf, jsNum_five] using hx
  · have hx := hf.2.2.2.2.2.2.2.2.2.2.1 _ _ 1 0 0 rfl rfl rfl rfl
    simpa [indentOf, rgba_red_one] using hx
  · have hx := hf.2.2.2.2.2.2.2.2.2.2.2.1 _ _ 1 0 0 ("hero".toList) rfl rfl rfl rfl
    simpa [selOf, rgba_red_one] using hx
  · exact hl.2.2.2.2.2.2.2.2.2.2.2.2.1 ("VERTICAL".toList) 4 rfl (by decide) rfl rfl

/-- Counterexample to C3 as stated: for a node carrying only
`paddingTop = 5`, the extractor emits `// Padding: 5px 0px 0px 0px`,
inventing the value `0` for the three padding sides the node does not
carry. -/
theorem c3_counterexample :
    extractStylesForAI c3Node 0 = "// Padding: 5px 0px 0px 0px\n".toList ∧
    c3Node.paddingLeft = none ∧ c3Node.paddingRight = none ∧
    c3Node.paddingBottom = none := by
  refine ⟨?_, rfl, rfl, rfl⟩
  have hd : (decide ((5 : ℚ) = 0)) = false := by norm_num
  simp [extractStylesForAI, aiTextPart, aiFillPart, aiStylePart, aiBoxPart, aiConstraintsPart, aiPaddingPart, aiCornerPart, aiLayoutPart, c3Node, baseNode, strTruthy, numTruthy, jsOrNum, hd,
    jsNum_zero, jsNum_five, indentOf, List.append_assoc]


/-! ## Claim C7: the rgba rendering of a half-opaque red solid fill -/

/-- C7: a node whose first fill is solid with color `(r=1, g=0, b=0)` and
opacity `0.5` makes both Style Extractors emit the exact text
`rgba(255, 0, 0, 0.5)` (channels rounded to 0-255, opacity passed
through). -/
theorem c7_rgba_red (node : DesignNode) (level : Nat) (cls : Str)
    (fill : Fill) (rest : List Fill)
    (hf : node.fills = some (fill :: rest)) (ht : fill.type = "SOLID".toList)
    (hc : fill.color = some (1, 0, 0)) (ho : fill.opacity = some ((1 : ℚ)/2)) :
    ("rgba(255, 0, 0, 0.5)".toList <:+: extractStylesForAI node level) ∧
    ("rgba(255, 0, 0, 0.5)".toList <:+: extractStyles node cls) := by
  have hop : jsOrNum fill.opacity 1 = (1 : ℚ)/2 := by
    rw [ho, jsOrNum, if_neg (by norm_num)]
  have hfill : aiFillPart node (indentOf level)
      = indentOf level ++ "// Background: ".toList ++ "rgba(255, 0, 0, 0.5)".toList ++ ['\n'] := by
    rw [aiFillPart, hf]
    simp only [hc]
    rw [if_pos ht, hop, rgba_red_half]
  have hcss : cssFillPart node cls
      = selOf cls ++ " \x7b\n".toList
          ++ "  background-color: ".toList ++ "rgba(255, 0, 0, 0.5)".toList ++ ";\n".toList := by
    rw [cssFillPart, hf]
    simp only [hc]
    rw [if_pos ht, hop, rgba_red_half]
  constructor
  · rw [extractStylesForAI]
    apply infix_append_right
    apply infix_append_right
    apply infix_append_right
    apply infix_append_right
    apply infix_append_right
    apply infix_append_right
    apply infix_append_left
    rw [hfill]
    apply infix_append_right
    apply infix_append_left
    exact List.infix_rfl
  · rw [extractStyles]
    apply infix_append_right
    apply infix_append_right
    apply infix_append_right
    apply infix_append_right
    rw [hcss]
    apply infix_append_right
    apply infix_append_left
    exact List.infix_rfl

/-- Witness for C7 at a concrete node carrying exactly that fill. -/
theorem c7_witness :
    ("rgba(255, 0, 0, 0.5)".toList <:+: extractStylesForAI c7Node 0) ∧
    ("rgba(255, 0, 0, 0.5)".toList <:+: extractStyles c7Node ("card".toList)) :=
  c7_rgba_red c7Node 0 ("card".toList)
    ⟨"SOLID".toList, some (1, 0, 0), some ((1 : ℚ)/2)⟩ [] rfl rfl rfl rfl

/-! ## Claim C9: per-image failures are soft, batch failure degrades to [] -/

/-- The download loop is the accumulated `processEntry`/`entryCalls` of its
entries. -/
theorem harvestLoop_spec (env : HarvestEnv) (imageNodes : List DesignNode) :
    ∀ (entries : List (Str × Option Str)) (imports : List ImageImport) (calls : List NetCall),
      harvestLoop env imageNodes entries imports calls
        = (imports ++ entries.filterMap (processEntry env imageNodes),
           calls ++ entries.flatMap (entryCalls env imageNodes)) := by
  intro entries
  induction entries with
  | nil => intro imports calls; simp [harvestLoop]
  | cons e rest ih =>
    intro imports calls
    obtain ⟨nodeId, urlOpt⟩ := e
    cases urlOpt with
    | none => simp [harvestLoop, processEntry, entryCalls, ih]
    | some url =>
      by_cases hu : url = []
      · simp [harvestLoop, processEntry, entryCalls, hu, ih]
      · cases hfind : imageNodes.find? (fun n => decide (n.id = nodeId)) with
        | none => simp [harvestLoop, processEntry, entryCalls, hu, hfind, ih]
        | some node =>
          cases hdl : env.downloadImage url with
          | error msg => simp [harvestLoop, processEntry, entryCalls, hu, hfind, hdl, ih]
          | ok u => simp [harvestLoop, processEntry, entryCalls, hu, hfind, hdl, ih]

/-- C9: when the batched URL resolution fails the harvester returns an empty
result; when it succeeds, the result collects exactly the entries whose
download succeeds — every successfully downloaded candidate's import is
included, and an entry whose download throws contributes nothing. -/
theorem c9_partial_failure (env : HarvestEnv) (fileId : Str) (nodes : DesignNode)
    (imgs : List DesignNode)
    (hfind : findImageNodes nodes = some imgs) (hne : imgs ≠ []) :
    (∀ err, env.resolveImages fileId (joinComma (imgs.map (fun n => n.id))) = .error err →
      extractAndSaveImages env fileId nodes
        = some ([], [NetCall.resolveImages fileId (joinComma (imgs.map (fun n => n.id)))])) ∧
    (∀ entries, env.resolveImages fileId (joinComma (imgs.map (fun n => n.id))) = .ok entries →
      extractAndSaveImages env fileId nodes
        = some (entries.filterMap (processEntry env imgs),
            NetCall.resolveImages fileId (joinComma (imgs.map (fun n => n.id)))
              :: entries.flatMap (entryCalls env imgs)) ∧
      (∀ e ∈ entries, ∀ imp, processEntry env imgs e = some imp →
        imp ∈ entries.filterMap (processEntry env imgs)) ∧
      (∀ e ∈ entries, ∀ url, e.2 = some url → url ≠ [] →
        (∃ msg, env.downloadImage url = .error msg) →
        processEntry env imgs e = none)) := by
  have hlen : ¬ (imgs.length = 0) := by simpa using hne
  constructor
  · intro err herr
    simp [extractAndSaveImages, hfind, hlen, herr]
  · intro entries hok
    refine ⟨?_, ?_, ?_⟩
    · simp [extractAndSaveImages, hfind, hlen, hok, harvestLoop_spec]
    · intro e he imp himp
      exact List.mem_filterMap.mpr ⟨e, he, himp⟩
    · intro e he url hurl hurlne hx
      obtain ⟨msg, hmsg⟩ := hx
      cases hfind2 : imgs.find? (fun n => decide (n.id = e.1)) with
      | none => simp [processEntry, hurl, hurlne, hfind2]
      | some node => simp [processEntry, hurl, hurlne, hfind2, hmsg]

/-- Witness for C9: two image-fill candidates, the first one's download
throws; the result contains exactly the second one's import, and the call
trace shows the one batched resolution and both download attempts. -/
theorem c9_witness :
    extractAndSaveImages c9Env ("fileY".toList) c9Root
      = some ([⟨"PhotoTwo".toList, "PhotoTwo.png".toList, "./assets/PhotoTwo.png".toList,
               "b".toList, "PhotoTwo".toList⟩],
          [NetCall.resolveImages ("fileY".toList) ("a,b".toList),
           NetCall.downloadImage ("urlA".toList), NetCall.downloadImage ("urlB".toList)]) := by
  have hfind : findImageNodes c9Root = some [c9NodeA, c9NodeB] := by
    simp [findImageNodes, findImageNodesGo, findImageNodesKids, rectEllipseStep,
      instanceStep, hasImageFill, c9Root, c9NodeA, c9NodeB, baseNode]
  have h := ((c9_partial_failure c9Env ("fileY".toList) c9Root [c9NodeA, c9NodeB]
      hfind (by simp)).2
      [("a".toList, some ("urlA".toList)), ("b".toList, some ("urlB".toList))] rfl).1
  rw [h]
  decide


/-! ## Claim C4: which nodes the candidate search selects -/

theorem rectEllipseStep_eq (n : DesignNode) (acc : List DesignNode)
    (h : readsName n = true → n.name.isSome = true) :
    rectEllipseStep n acc = some (acc ++ (if rectCond n then [n] else [])) := by
  cases hc : (n.type = some ("RECTANGLE".toList) || n.type = some ("ELLIPSE".toList) : Bool) with
  | false =>
    rw [rectEllipseStep, if_neg (by simpa using hc)]
    rw [rectCond, hc, Bool.false_and]
    simp
  | true =>
    have hname : n.name.isSome = true := h (by
      simp only [readsName]
      simp only [Bool.or_eq_true] at hc ⊢
      tauto)
    obtain ⟨nm, hn⟩ := Option.isSome_iff_exists.mp hname
    rw [rectEllipseStep, if_pos hc, hn]
    rw [rectCond, hc, Bool.true_and, hn]
    cases hkw : kwAnyOf shapeKws (lowerStr nm) with
    | false => simp [hkw]
    | true => simp [hkw]

theorem instanceStep_eq (n : DesignNode) (acc : List DesignNode)
    (h : readsName n = true → n.name.isSome = true) :
    instanceStep n acc = some (acc ++ (if instCond n then [n] else [])) := by
  cases hc : (n.type = some ("INSTANCE".toList) || n.type = some ("COMPONENT".toList) : Bool) with
  | false =>
    rw [instanceStep, if_neg (by simpa using hc)]
    rw [instCond, hc, Bool.false_and]
    simp
  | true =>
    have hname : n.name.isSome = true := h (by
      simp only [readsName]
      simp only [Bool.or_eq_true] at hc ⊢
      tauto)
    obtain ⟨nm, hn⟩ := Option.isSome_iff_exists.mp hname
    rw [instanceStep, if_pos hc, hn]
    rw [instCond, hc, Bool.true_and, hn]
    cases hkw : kwAnyOf instanceKws (lowerStr nm) with
    | false => simp [hkw]
    | true => simp [hkw]

/-- The search succeeds and returns the accumulator followed by the pushed
candidates, for a forest whose relevant nodes all carry names. -/
theorem findImageNodesKids_collect : ∀ (k : Nat) (cs : List DesignNode), sizeOf cs ≤ k →
    (∀ m ∈ allNodesList cs, readsName m = true → m.name.isSome = true) →
    ∀ acc, findImageNodesKids cs acc = some (acc ++ collectCandidates cs) := by
  intro k
  induction k with
  | zero =>
    intro cs h
    cases cs <;> simp at h
  | succ k ih =>
    intro cs hsz hnames acc
    cases cs with
    | nil => simp [findImageNodesKids, collectCandidates]
    | cons c rest =>
      have hszspec : 1 + sizeOf c + sizeOf rest ≤ k + 1 := by
        simpa using hsz
      have hszc : sizeOf c.children ≤ k := by
        have := sizeOf_children_lt c; omega
      have hszr : sizeOf rest ≤ k := by omega
      have hmem : ∀ m ∈ allNodesList c.children, readsName m = true → m.name.isSome = true := by
        intro m hm
        exact hnames m (by rw [allNodesList]; simp [hm])
      have hmemr : ∀ m ∈ allNodesList rest, readsName m = true → m.name.isSome = true := by
        intro m hm
        exact hnames m (by rw [allNodesList]; simp [hm])
      have hcname : readsName c = true → c.name.isSome = true :=
        hnames c (by rw [allNodesList]; simp)
      rw [findImageNodesKids]
      rw [findImageNodesGo]
      rw [rectEllipseStep_eq c _ hcname]
      simp only []
      rw [instanceStep_eq c _ hcname]
      simp only []
      rw [ih c.children hszc hmem]
      simp only []
      rw [ih rest hszr hmemr]
      rw [collectCandidates, candParts]
      cases hasImageFill c <;> cases rectCond c <;> cases instCond c <;>
        simp [List.append_assoc]

/-- Membership in one node's pushes. -/
theorem mem_candParts (n x : DesignNode) :
    x ∈ candParts n ↔ (x = n ∧ qualifies n = true) := by
  cases hf : hasImageFill n <;> cases hr : rectCond n <;> cases hi : instCond n <;>
    simp [candParts, qualifies, hf, hr, hi]

/-- The pushed candidates are the preorder nodes expanded by their pushes. -/
theorem collect_eq_flatMap : ∀ (k : Nat) (cs : List DesignNode), sizeOf cs ≤ k →
    collectCandidates cs = (allNodesList cs).flatMap candParts := by
  intro k
  induction k with
  | zero =>
    intro cs h
    cases cs <;> simp at h
  | succ k ih =>
    intro cs hsz
    cases cs with
    | nil => simp [collectCandidates, allNodesList]
    | cons c rest =>
      have hszspec : 1 + sizeOf c + sizeOf rest ≤ k + 1 := by
        simpa using hsz
      have hszc : sizeOf c.children ≤ k := by
        have := sizeOf_children_lt c; omega
      have hszr : sizeOf rest ≤ k := by omega
      rw [collectCandidates, allNodesList, ih c.children hszc, ih rest hszr]
      simp [List.append_assoc]

/-- C4 (amended): on a tree whose rectangle / ellipse / instance / component
nodes all carry names, the search succeeds, and it selects exactly the nodes
with an image-type fill, the rectangles/ellipses whose lower-cased name
contains one of image, img, photo, picture, icon, logo, and the
instances/components whose lower-cased name contains one of image, icon,
logo (the source checks only those three keywords for instances and
components). -/
theorem c4_findImageNodes_selection (n : DesignNode) (h : namesOk n = true) :
    ∃ r, findImageNodes n = some r ∧
      ∀ x, (x ∈ r ↔ x ∈ allNodes n ∧ qualifies x = true) := by
  have hnames : ∀ m ∈ allNodesList [n], readsName m = true → m.name.isSome = true := by
    intro m hm hr
    have := (List.all_eq_true.mp h) m hm
    simp only [Bool.or_eq_true, Bool.not_eq_true'] at this
    rcases this with h1 | h1
    · rw [hr] at h1; cases h1
    · exact h1
  refine ⟨collectCandidates [n], ?_, ?_⟩
  · have hk := findImageNodesKids_collect (sizeOf [n]) [n] le_rfl hnames []
    simp only [findImageNodesKids] at hk
    rw [findImageNodes]
    cases hg : findImageNodesGo n [] with
    | none => rw [hg] at hk; cases hk
    | some acc2 =>
      rw [hg] at hk
      simpa using hk
  · intro x
    rw [collect_eq_flatMap (sizeOf [n]) [n] le_rfl]
    constructor
    · intro hx
      obtain ⟨a, ha, hxa⟩ := List.mem_flatMap.mp hx
      obtain ⟨hxeq, hq⟩ := (mem_candParts a x).mp hxa
      subst hxeq
      exact ⟨ha, hq⟩
    · intro ⟨hmem, hq⟩
      exact List.mem_flatMap.mpr ⟨x, hmem, (mem_candParts x x).mpr ⟨rfl, hq⟩⟩

/-- Witness for C4: the search on the `photo` instance succeeds and selects
nothing, matching the selection predicate of the code. -/
theorem c4_witness :
    ∃ r, findImageNodes c4Node = some r ∧
      ∀ x, (x ∈ r ↔ x ∈ allNodes c4Node ∧ qualifies x = true) :=
  c4_findImageNodes_selection c4Node (by
    simp [namesOk, allNodes, allNodesList, c4Node, baseNode, readsName])

/-- Counterexample to C4 as stated: an `INSTANCE` node named `photo` with no
fills satisfies the claim's selection rule (keyword `photo` on an instance),
yet the search selects nothing — the source checks only image/icon/logo for
instances and components. -/
theorem c4_counterexample :
    findImageNodes c4Node = some [] ∧ claimSelects c4Node = true := by
  constructor
  · simp [findImageNodes, findImageNodesGo, findImageNodesKids, rectEllipseStep,
      instanceStep, hasImageFill, c4Node, baseNode]
    decide
  · decide


/-! ## Claim C2: line count and indentation of the Tree Summarizer -/

theorem splitNl_ne_nil (s : Str) : splitNl s ≠ [] := by
  induction s with
  | nil => simp [splitNl]
  | cons c rest ih =>
    rw [splitNl]
    split
    · simp
    · cases h : splitNl rest with
      | nil => exact absurd h ih
      | cons a t => simp [List.modifyHead]

theorem splitNl_append_nl (a b : Str) : splitNl (a ++ '\n' :: b) = splitNl a ++ splitNl b := by
  induction a with
  | nil => simp [splitNl]
  | cons c rest ih =>
    by_cases hc : c = '\n'
    · subst hc
      simp [splitNl, ih]
    · cases h : splitNl rest with
      | nil => exact absurd h (splitNl_ne_nil rest)
      | cons x t =>
        simp only [List.cons_append, splitNl, if_neg hc, List.append_eq]
        rw [ih, h]
        simp [List.modifyHead]

theorem splitNl_no_nl (s : Str) (h : '\n' ∉ s) : splitNl s = [s] := by
  induction s with
  | nil => rfl
  | cons c rest ih =>
    have hc : ¬ (c = '\n') := fun hh => h (hh ▸ List.mem_cons_self c rest)
    rw [splitNl, if_neg hc, ih (fun hm => h (List.mem_cons_of_mem c hm))]
    rfl

theorem length_splitNl (s : Str) : (splitNl s).length = countNl s + 1 := by
  induction s with
  | nil => rfl
  | cons c rest ih =>
    rw [splitNl]
    by_cases hc : c = '\n'
    · subst hc
      simp [countNl, ih]
    · rw [if_neg hc]
      cases h : splitNl rest with
      | nil => exact absurd h (splitNl_ne_nil rest)
      | cons x t =>
        rw [h] at ih
        simp only [List.modifyHead, List.length_cons] at ih ⊢
        rw [ih]
        simp [countNl, List.count_cons, hc]

theorem preDepthList_length : ∀ (k : Nat) (cs : List DesignNode), sizeOf cs ≤ k →
    ∀ d, (preDepthList cs d).length = nodeCountList cs := by
  intro k
  induction k with
  | zero => intro cs h; cases cs <;> simp at h
  | succ k ih =>
    intro cs hsz d
    cases cs with
    | nil => simp [preDepthList, nodeCountList]
    | cons c rest =>
      have hszspec : 1 + sizeOf c + sizeOf rest ≤ k + 1 := by simpa using hsz
      have hszc : sizeOf c.children ≤ k := by
        have := sizeOf_children_lt c; omega
      have hszr : sizeOf rest ≤ k := by omega
      rw [preDepthList, nodeCountList]
      simp [ih c.children hszc, ih rest hszr]
      omega

theorem nodeLineBasic_no_nl (n : DesignNode) (d : Nat)
    (h : (noNlOpt n.name && noNlOpt n.type) = true) : '\n' ∉ nodeLineBasic n d := by
  have h' := h
  simp only [Bool.and_eq_true] at h'
  obtain ⟨h1, h2⟩ := h'
  have hn : '\n' ∉ jsStrOpt n.name := by
    cases hx : n.name with
    | none => rw [jsStrOpt]; decide
    | some v =>
      rw [hx] at h1
      rw [jsStrOpt]
      simpa [noNlOpt] using h1
  have ht : '\n' ∉ jsStrOpt n.type := by
    cases hx : n.type with
    | none => rw [jsStrOpt]; decide
    | some v =>
      rw [hx] at h2
      rw [jsStrOpt]
      simpa [noNlOpt] using h2
  intro hmem
  rw [nodeLineBasic] at hmem
  simp only [List.mem_append, List.mem_singleton] at hmem
  rcases hmem with ((((hi | hd) | hn') | hp) | ht') | hc
  · exact absurd (List.eq_of_mem_replicate hi) (by decide)
  · revert hd; decide
  · exact hn hn'
  · revert hp; decide
  · exact ht ht'
  · exact absurd hc (by decide)

theorem extractNodeSummaryBasic_decompose (n : DesignNode) (d : Nat) :
    extractNodeSummaryBasic n d
      = nodeLineBasic n d ++ '\n' :: extractNodeSummaryBasicKids n.children (d + 1) := by
  rw [extractNodeSummaryBasic, nodeLineBasic]
  simp [List.append_assoc]

theorem splitNl_summaryKids : ∀ (k : Nat) (cs : List DesignNode), sizeOf cs ≤ k →
    (∀ m ∈ allNodesList cs, (noNlOpt m.name && noNlOpt m.type) = true) →
    ∀ (d : Nat) (r : Str),
      splitNl (extractNodeSummaryBasicKids cs d ++ r)
        = (preDepthList cs d).map (fun p => nodeLineBasic p.1 p.2) ++ splitNl r := by
  intro k
  induction k with
  | zero => intro cs h; cases cs <;> simp at h
  | succ k ih =>
    intro cs hsz hgood d r
    cases cs with
    | nil => simp [extractNodeSummaryBasicKids, preDepthList]
    | cons c rest =>
      have hszspec : 1 + sizeOf c + sizeOf rest ≤ k + 1 := by simpa using hsz
      have hszc : sizeOf c.children ≤ k := by
        have := sizeOf_children_lt c; omega
      have hszr : sizeOf rest ≤ k := by omega
      have hgc : ∀ m ∈ allNodesList c.children, (noNlOpt m.name && noNlOpt m.type) = true := by
        intro m hm; exact hgood m (by rw [allNodesList]; simp [hm])
      have hgr : ∀ m ∈ allNodesList rest, (noNlOpt m.name && noNlOpt m.type) = true := by
        intro m hm; exact hgood m (by rw [allNodesList]; simp [hm])
      have hgc0 : (noNlOpt c.name && noNlOpt c.type) = true :=
        hgood c (by rw [allNodesList]; simp)
      have hstep : extractNodeSummaryBasicKids (c :: rest) d ++ r
          = nodeLineBasic c d
            ++ '\n' :: (extractNodeSummaryBasicKids c.children (d + 1)
                ++ (extractNodeSummaryBasicKids rest d ++ r)) := by
        rw [extractNodeSummaryBasicKids, extractNodeSummaryBasic_decompose]
        simp [List.append_assoc]
      rw [hstep, splitNl_append_nl, splitNl_no_nl _ (nodeLineBasic_no_nl c d hgc0),
        ih c.children hszc hgc, ih rest hszr hgr, preDepthList]
      simp [List.append_assoc]

theorem takeWhile_indent : ∀ (k : Nat) (t : Str),
    (List.replicate k ' ' ++ '-' :: t).takeWhile (fun c => c = ' ') = List.replicate k ' ' := by
  intro k
  induction k with
  | zero => intro t; simp [List.takeWhile]
  | succ k ih => intro t; simp [List.replicate, List.takeWhile, ih]


/-- C2 (amended): for a tree whose rendered names and types are newline-free,
the figma-to-react.js Tree Summarizer emits exactly one line per node — the
newline count equals the node count — and the line for the node visited at
preorder position `i` is that node's own line, beginning with exactly
`2 * depth` space characters.  (The sonet summarizer cited by the same claim
interleaves style-annotation lines, so its line count exceeds the node count
whenever style info is present; see the counterexample.) -/
theorem c2_line_count_and_indent (n : DesignNode) (h : goodNames n = true) :
    countNl (extractNodeSummaryBasic n 0) = nodeCount n ∧
    (∀ (i : Nat) (node : DesignNode) (depth : Nat),
      (preDepthList [n] 0)[i]? = some (node, depth) →
      (splitNl (extractNodeSummaryBasic n 0))[i]? = some (nodeLineBasic node depth) ∧
      ((nodeLineBasic node depth).takeWhile (fun c => c = ' ')).length = 2 * depth) := by
  have hgood : ∀ m ∈ allNodesList [n], (noNlOpt m.name && noNlOpt m.type) = true := by
    intro m hm
    exact List.all_eq_true.mp h m hm
  have hbasic : extractNodeSummaryBasicKids [n] 0 ++ [] = extractNodeSummaryBasic n 0 := by
    rw [extractNodeSummaryBasicKids, extractNodeSummaryBasicKids]
    simp
  have hsplit := splitNl_summaryKids (sizeOf [n]) [n] le_rfl hgood 0 []
  rw [hbasic] at hsplit
  constructor
  · have hlen := congrArg List.length hsplit
    rw [length_splitNl] at hlen
    simp only [List.length_append, List.length_map] at hlen
    rw [preDepthList_length (sizeOf [n]) [n] le_rfl 0] at hlen
    have h1 : splitNl ([] : Str) = [[]] := rfl
    rw [h1] at hlen
    simp only [List.length_singleton] at hlen
    rw [nodeCount]
    omega
  · intro i node depth hget
    have hlt : i < (preDepthList [n] 0).length := by
      by_contra hge
      rw [List.getElem?_eq_none (Nat.le_of_not_lt hge)] at hget
      cases hget
    constructor
    · rw [hsplit, List.getElem?_append, if_pos (by simpa using hlt),
        List.getElem?_map, hget]
      rfl
    · rw [nodeLineBasic, indentOf]
      have hshape : List.replicate (2 * depth) ' ' ++ "- ".toList ++ jsStrOpt node.name
          ++ " (".toList ++ jsStrOpt node.type ++ [')']
          = List.replicate (2 * depth) ' '
            ++ '-' :: ' ' :: (jsStrOpt node.name ++ " (".toList ++ jsStrOpt node.type ++ [')']) := by
        simp [List.append_assoc]
      rw [hshape, takeWhile_indent]
      simp

/-- Witness for C2 on a concrete two-node tree. -/
theorem c2_witness :
    countNl (extractNodeSummaryBasic c2WitnessNode 0) = nodeCount c2WitnessNode ∧
    (∀ (i : Nat) (node : DesignNode) (depth : Nat),
      (preDepthList [c2WitnessNode] 0)[i]? = some (node, depth) →
      (splitNl (extractNodeSummaryBasic c2WitnessNode 0))[i]? = some (nodeLineBasic node depth) ∧
      ((nodeLineBasic node depth).takeWhile (fun c => c = ' ')).length = 2 * depth) :=
  c2_line_count_and_indent c2WitnessNode (by
    simp [goodNames, allNodes, allNodesList, c2WitnessNode, c2ChildNode, baseNode, noNlOpt])

/-- Counterexample to C2 as stated: the sonet `extractNodeSummary` (cited by
the claim) interleaves a `// TEXT:` style annotation, so a single text node
renders as two lines. -/
theorem c2_counterexample :
    countNl (extractNodeSummary c2Node 0) = 2 ∧ nodeCount c2Node = 1 := by
  constructor
  · have h : extractNodeSummary c2Node 0
        = "- a (TEXT)\n".toList ++ "  // TEXT: \"hi\"\n".toList := by
      simp only [extractNodeSummary, extractNodeSummaryKids, extractStylesForAI,
        aiTextPart, aiFillPart, aiStylePart, aiBoxPart, aiConstraintsPart,
        aiPaddingPart, aiCornerPart, aiLayoutPart, c2Node, baseNode]
      decide
    rw [h]
    decide
  · simp [nodeCount, nodeCountList, c2Node, baseNode]


/-! ## Claim C1: the Output Sanitizer and interior code lines -/

theorem fenceFree_of_cons {c : Char} {s : Str} (h : fenceFree (c :: s)) : fenceFree s := by
  intro hf
  apply h
  obtain ⟨pre, post, hpp⟩ := hf
  exact ⟨c :: pre, post, by rw [← hpp]; rfl⟩

theorem not_startsFence_of_fenceFree {s : Str} (h : fenceFree s) :
    ¬ startsFence s = true := by
  intro hs
  apply h
  rw [startsFence] at hs
  have heq := of_decide_eq_true hs
  refine ⟨[], s.drop 3, ?_⟩
  rw [List.nil_append, ← heq]
  exact List.take_append_drop 3 s

theorem pass1Go_id : ∀ (fuel : Nat) (l : Str), fenceFree l → pass1Go fuel l = l := by
  intro fuel
  induction fuel with
  | zero => intro l h; rfl
  | succ fuel ih =>
    intro l h
    cases l with
    | nil => rfl
    | cons c rest =>
      rw [pass1Go, if_neg (not_startsFence_of_fenceFree h), ih rest (fenceFree_of_cons h)]

theorem pass2Go_id : ∀ (fuel : Nat) (l : Str), fenceFree l → pass2Go fuel l = l := by
  intro fuel
  induction fuel with
  | zero => intro l h; rfl
  | succ fuel ih =>
    intro l h
    cases l with
    | nil => rfl
    | cons c rest =>
      rw [pass2Go, if_neg (not_startsFence_of_fenceFree h), ih rest (fenceFree_of_cons h)]

theorem removeFences_id (s : Str) (h : fenceFree s) :
    removeFences2 (removeFences1 s) = s := by
  rw [removeFences1, pass1Go_id s.length s h, removeFences2, pass2Go_id s.length s h]

theorem trimL_suffix (s : Str) : trimL s <:+ s := List.dropWhile_suffix isWs

theorem trimR_isPrefix (s : Str) : trimR s <+: s := by
  rw [trimR]
  have h : s.reverse.dropWhile isWs <:+ s.reverse := List.dropWhile_suffix isWs
  have h3 := List.reverse_prefix.mpr h
  rwa [List.reverse_reverse] at h3

theorem trim_isInfix (s : Str) : trim s <:+: s := by
  rw [trim]
  exact (trimR_isPrefix (trimL s)).isInfix.trans (trimL_suffix s).isInfix

theorem joinNl_modifyHead (c : Char) (a : Str) (t : List Str) :
    joinNl ((a :: t).modifyHead (fun l => c :: l)) = c :: joinNl (a :: t) := by
  cases t with
  | nil => rfl
  | cons y t' => rfl


theorem joinNl_splitNl (s : Str) : joinNl (splitNl s) = s := by
  induction s with
  | nil => rfl
  | cons c rest ih =>
    rw [splitNl]
    by_cases hc : c = '\n'
    · subst hc
      rw [if_pos rfl]
      cases h : splitNl rest with
      | nil => exact absurd h (splitNl_ne_nil rest)
      | cons a t =>
        rw [h] at ih
        simp only [h, joinNl, List.nil_append, ih]
    · rw [if_neg hc]
      cases h : splitNl rest with
      | nil => exact absurd h (splitNl_ne_nil rest)
      | cons a t =>
        rw [h] at ih
        rw [joinNl_modifyHead, ih]

theorem prefix_ext_left (z : Str) {x y : Str} (h : x <+: y) : z ++ x <+: z ++ y := by
  obtain ⟨t, rfl⟩ := h
  exact ⟨t, by rw [List.append_assoc]⟩

theorem joinNl_take_isPrefix (L : List Str) : ∀ (k : Nat), joinNl (L.take k) <+: joinNl L := by
  induction L with
  | nil => intro k; simp [joinNl]
  | cons a t ih =>
    intro k
    cases k with
    | zero => simp [joinNl]
    | succ k' =>
      rw [List.take_succ_cons]
      cases t with
      | nil => simp [joinNl]
      | cons b t' =>
        cases k' with
        | zero =>
          simp only [List.take_zero, joinNl]
          exact ⟨'\n' :: joinNl (b :: t'), rfl⟩
        | succ k'' =>
          have hpre := prefix_ext_left (a ++ ['\n']) (ih (k'' + 1))
          simpa [joinNl, List.take_succ_cons, List.append_assoc] using hpre

/-- C1 groundwork: on fence-free input the sanitizer's output is a
contiguous slice of the input. -/
theorem cleanGeneratedCode_slice (s : Str) (h : fenceFree s) :
    cleanGeneratedCode s <:+: s := by
  have hfin : ∀ (x : Str), x <:+: s →
      (match lastCodeIdx (splitNl x) with
       | some j => trim (joinNl ((splitNl x).take (j + 1)))
       | none => trim x) <:+: s := by
    intro x hx
    cases hl : lastCodeIdx (splitNl x) with
    | none => exact (trim_isInfix x).trans hx
    | some j =>
      have h1 : joinNl ((splitNl x).take (j + 1)) <+: x := by
        have h2 := joinNl_take_isPrefix (splitNl x) (j + 1)
        rwa [joinNl_splitNl] at h2
      exact (trim_isInfix _).trans (h1.isInfix.trans hx)
  have hdef : cleanGeneratedCode s
      = (let cleaned2 :=
          match searchCodeStart s with
          | some i => if 0 < i then trim (s.drop i) else s
          | none => s
        match lastCodeIdx (splitNl cleaned2) with
        | some j => trim (joinNl ((splitNl cleaned2).take (j + 1)))
        | none => trim cleaned2) := by
    rw [cleanGeneratedCode, removeFences_id s h]
  rw [hdef]
  cases hs : searchCodeStart s with
  | none =>
    simp only [hs]
    exact hfin s List.infix_rfl
  | some i =>
    simp only [hs]
    by_cases hi : 0 < i
    · rw [if_pos hi]
      exact hfin _ ((trim_isInfix _).trans (List.drop_suffix i s).isInfix)
    · rw [if_neg hi]
      exact hfin s List.infix_rfl

theorem tail_dropLast (l : List Str) : l.tail.dropLast = l.dropLast.tail := by
  cases l with
  | nil => rfl
  | cons x t =>
    cases t with
    | nil => rfl
    | cons y t' => rfl

/-- Splitting an arbitrary concatenation: the left part's lines except its
last, one glued line, then the right part's lines except its first. -/
theorem splitNl_append (a b : Str) :
    splitNl (a ++ b)
      = (splitNl a).dropLast
        ++ (lastD0 (splitNl a) ++ (splitNl b).headD []) :: (splitNl b).tail := by
  induction a with
  | nil =>
    cases h : splitNl b with
    | nil => exact absurd h (splitNl_ne_nil b)
    | cons x t => simp [splitNl, lastD0, h]
  | cons c rest ih =>
    by_cases hc : c = '\n'
    · subst hc
      cases hR : splitNl rest with
      | nil => exact absurd hR (splitNl_ne_nil rest)
      | cons r0 R' =>
        simp only [List.cons_append, splitNl, if_pos rfl, List.append_eq, ih, hR]
        cases R' with
        | nil => simp [lastD0]
        | cons r1 R'' => simp [lastD0]
    · cases hR : splitNl rest with
      | nil => exact absurd hR (splitNl_ne_nil rest)
      | cons r0 R' =>
        simp only [List.cons_append, splitNl, if_neg hc, List.append_eq, ih, hR]
        cases R' with
        | nil => simp [lastD0, List.modifyHead]
        | cons r1 R'' => simp [lastD0, List.modifyHead]

/-- C1 groundwork: on fence-free input, the interior lines of the
sanitizer's output are a consecutive run of the input's lines, verbatim. -/
theorem cleanGeneratedCode_interior (s : Str) (h : fenceFree s) :
    ((splitNl (cleanGeneratedCode s)).tail).dropLast <:+: splitNl s := by
  obtain ⟨pre, post, hpp⟩ := cleanGeneratedCode_slice s h
  have hglue1 : splitNl s
      = (splitNl pre).dropLast
        ++ (lastD0 (splitNl pre) ++ (splitNl (cleanGeneratedCode s ++ post)).headD [])
          :: (splitNl (cleanGeneratedCode s ++ post)).tail := by
    conv_lhs => rw [← hpp, List.append_assoc]
    exact splitNl_append pre _
  have hglue2 : splitNl (cleanGeneratedCode s ++ post)
      = (splitNl (cleanGeneratedCode s)).dropLast
        ++ (lastD0 (splitNl (cleanGeneratedCode s)) ++ (splitNl post).headD [])
          :: (splitNl post).tail := splitNl_append _ post
  cases hOd : (splitNl (cleanGeneratedCode s)).dropLast with
  | nil =>
    have hnil : (splitNl (cleanGeneratedCode s)).tail.dropLast = [] := by
      rw [tail_dropLast, hOd]
      rfl
    rw [hnil]
    exact ⟨[], splitNl s, by simp⟩
  | cons o0 os =>
    have hint : (splitNl (cleanGeneratedCode s)).tail.dropLast = os := by
      rw [tail_dropLast, hOd]
      rfl
    rw [hint]
    refine ⟨(splitNl pre).dropLast
        ++ [lastD0 (splitNl pre) ++ (splitNl (cleanGeneratedCode s ++ post)).headD []],
      (lastD0 (splitNl (cleanGeneratedCode s)) ++ (splitNl post).headD [])
        :: (splitNl post).tail, ?_⟩
    rw [hglue1, hglue2, hOd]
    simp [List.append_assoc]

theorem splitNl_joinNl_noNl : ∀ (L : List Str), L ≠ [] → (∀ l ∈ L, '\n' ∉ l) →
    splitNl (joinNl L) = L := by
  intro L
  induction L with
  | nil => intro h; exact absurd rfl h
  | cons x t ih =>
    intro _ hnl
    cases t with
    | nil =>
      rw [joinNl, splitNl_no_nl x (hnl x (List.mem_cons_self x []))]
    | cons y t' =>
      rw [joinNl, splitNl_append_nl,
        splitNl_no_nl x (hnl x (List.mem_cons_self x (y :: t'))),
        ih (by simp) (fun l hl => hnl l (List.mem_cons_of_mem x hl))]
      rfl

theorem findIdxFrom_append (p : Str → Bool) :
    ∀ (a b : List Str), (∀ x ∈ a, p x = false) →
      findIdxFrom p (a ++ b) = (findIdxFrom p b).map (· + a.length) := by
  intro a
  induction a with
  | nil => intro b h; simp
  | cons x t ih =>
    intro b h
    rw [List.cons_append, findIdxFrom, if_neg (by simp [h x (List.mem_cons_self x t)]),
      ih b (fun y hy => h y (List.mem_cons_of_mem x hy))]
    cases findIdxFrom p b with
    | none => rfl
    | some j => simp [Option.map]; omega

theorem headD_append_lines (a b : List Str) (d : Str) (h : a ≠ []) :
    (a ++ b).headD d = a.headD d := by
  cases a with
  | nil => exact absurd rfl h
  | cons x t => rfl

theorem lastD0_eq_head_reverse : ∀ (C : List Str), C ≠ [] →
    C.reverse.headD [] = lastD0 C := by
  intro C
  induction C with
  | nil => intro h; exact absurd rfl h
  | cons x t ih =>
    intro _
    cases t with
    | nil => rfl
    | cons y t' =>
      rw [lastD0, List.reverse_cons,
        headD_append_lines _ _ _ (by simp), ih (by simp)]

theorem lastCodeIdx_append (C P : List Str) (hCne : C ≠ [])
    (hlast : lineTest (lastD0 C) = true)
    (hP : ∀ q ∈ P, lineTest q = false) :
    lastCodeIdx (C ++ P) = some (C.length - 1) := by
  have hrev : (C ++ P).reverse = P.reverse ++ C.reverse := List.reverse_append C P
  have hPrev : ∀ x ∈ P.reverse, lineTest x = false := by
    intro x hx; exact hP x (List.mem_reverse.mp hx)
  cases hCrev : C.reverse with
  | nil => exact absurd (by simpa using congrArg List.reverse hCrev) hCne
  | cons z R =>
    have hz : z = lastD0 C := by
      have := lastD0_eq_head_reverse C hCne
      rw [hCrev] at this
      exact this
    rw [lastCodeIdx, hrev, hCrev, findIdxFrom_append lineTest P.reverse (z :: R) hPrev]
    rw [findIdxFrom, if_pos (by rw [hz]; exact hlast)]
    have hClen : 1 ≤ C.length := by
      cases C with
      | nil => exact absurd rfl hCne
      | cons a b => simp
    simp only [Option.map, List.length_append, List.length_reverse]
    congr 1
    omega

theorem startsKw_ne_nil {l : Str} (h : startsKw l = true) : l ≠ [] := by
  intro hl
  subst hl
  revert h
  decide

theorem startsKw_head {l : Str} (h : startsKw l = true) :
    ∃ c t, l = c :: t ∧ isWs c = false := by
  simp only [startsKw, List.any_eq_true] at h
  obtain ⟨k, hk, hp⟩ := h
  obtain ⟨t, rfl⟩ := List.isPrefixOf_iff_prefix.mp hp
  fin_cases hk <;> exact ⟨_, _, rfl, by decide⟩

theorem startsKw_append {a : Str} (b : Str) (h : startsKw a = true) :
    startsKw (a ++ b) = true := by
  simp only [startsKw, List.any_eq_true] at h ⊢
  obtain ⟨k, hk, hp⟩ := h
  refine ⟨k, hk, ?_⟩
  rw [List.isPrefixOf_iff_prefix] at hp ⊢
  exact hp.trans (List.prefix_append a b)

theorem startsKw_joinNl {h0 : Str} (rest : List Str) (h : startsKw h0 = true) :
    startsKw (joinNl (h0 :: rest)) = true := by
  cases rest with
  | nil => exact h
  | cons y t => rw [joinNl]; exact startsKw_append _ h

theorem searchCodeStart_zero (s : Str) (h : startsKw s = true) :
    searchCodeStart s = some 0 := by
  cases hs : s with
  | nil => exact absurd hs (startsKw_ne_nil h)
  | cons c rest =>
    subst hs
    rw [searchCodeStart, searchAux, if_pos (by simp [h])]

theorem trimL_id (c : Char) (t : Str) (h : isWs c = false) : trimL (c :: t) = c :: t := by
  rw [trimL, List.dropWhile_cons, if_neg (by simp [h])]

theorem trimR_id (l : Str) (x : Char) (hx : l.getLast? = some x) (h : isWs x = false) :
    trimR l = l := by
  cases hrev : l.reverse with
  | nil =>
    have : l = [] := by simpa using congrArg List.reverse hrev
    subst this
    rfl
  | cons y t =>
    have hy : y = x := by
      have h1 := List.head?_reverse l
      rw [hrev] at h1
      rw [hx] at h1
      simpa using h1
    subst hy
    rw [trimR, hrev, List.dropWhile_cons, if_neg (by simp [h]), ← hrev,
      List.reverse_reverse]

theorem joinNl_head_cons (hc : Char) (ht : Str) (rest : List Str) :
    ∃ X, joinNl ((hc :: ht) :: rest) = hc :: X := by
  cases rest with
  | nil => exact ⟨ht, rfl⟩
  | cons y t => exact ⟨ht ++ '\n' :: joinNl (y :: t), rfl⟩

theorem joinNl_getLast? : ∀ (C : List Str) (x : Char), C ≠ [] →
    (lastD0 C).getLast? = some x → (joinNl C).getLast? = some x := by
  intro C
  induction C with
  | nil => intro x h; exact absurd rfl h
  | cons z t ih =>
    intro x _ hlast
    cases t with
    | nil =>
      rw [joinNl]
      exact hlast
    | cons y t' =>
      rw [lastD0] at hlast
      have hJ := ih x (by simp) hlast
      have hJne : joinNl (y :: t') ≠ [] := by
        intro hnil
        rw [hnil] at hJ
        cases hJ
      rw [joinNl]
      have h1 : z ++ '\n' :: joinNl (y :: t') = z ++ ['\n'] ++ joinNl (y :: t') := by
        simp
      rw [h1, List.getLast?_append_of_ne_nil _ hJne]
      exact hJ

/-- C1 groundwork: a response made of code lines (first line starting with a
recognized keyword, last code line passing the source's line test and ending
in non-whitespace) followed by trailing prose lines has exactly the prose
removed. -/
theorem cleanGeneratedCode_trailing (C P : List Str) (lastc : Char)
    (hCne : C ≠ [])
    (hnl : ∀ l ∈ C ++ P, '\n' ∉ l)
    (hff : fenceFree (joinNl (C ++ P)))
    (hkw : startsKw (C.headD []) = true)
    (hlast : lineTest (lastD0 C) = true)
    (hP : ∀ q ∈ P, lineTest q = false)
    (hlastc : (lastD0 C).getLast? = some lastc)
    (hws : isWs lastc = false) :
    cleanGeneratedCode (joinNl (C ++ P)) = joinNl C := by
  obtain ⟨ch, Ct, rfl⟩ : ∃ ch Ct, C = ch :: Ct := by
    cases C with
    | nil => exact absurd rfl hCne
    | cons a b => exact ⟨a, b, rfl⟩
  have hkw' : startsKw ch = true := hkw
  have hjkw : startsKw (joinNl ((ch :: Ct) ++ P)) = true := by
    rw [List.cons_append]
    exact startsKw_joinNl _ hkw'
  have hsearch := searchCodeStart_zero _ hjkw
  have hsplit : splitNl (joinNl ((ch :: Ct) ++ P)) = (ch :: Ct) ++ P :=
    splitNl_joinNl_noNl _ (by simp) hnl
  have hlci : lastCodeIdx ((ch :: Ct) ++ P) = some ((ch :: Ct).length - 1) :=
    lastCodeIdx_append _ _ (by simp) hlast hP
  have htake : ((ch :: Ct) ++ P).take (((ch :: Ct).length - 1) + 1) = ch :: Ct := by
    have h1 : (ch :: Ct).length - 1 + 1 = (ch :: Ct).length := by simp
    rw [h1, List.take_left]
  obtain ⟨hc0, ht0, hch, hwsc⟩ := startsKw_head hkw'
  have htrim : trim (joinNl (ch :: Ct)) = joinNl (ch :: Ct) := by
    have hgl : (joinNl (ch :: Ct)).getLast? = some lastc :=
      joinNl_getLast? _ lastc (by simp) hlastc
    subst hch
    obtain ⟨X, hXeq⟩ := joinNl_head_cons hc0 ht0 Ct
    rw [trim, hXeq, trimL_id hc0 X hwsc, ← hXeq]
    exact trimR_id _ lastc hgl hws
  have hdef : cleanGeneratedCode (joinNl ((ch :: Ct) ++ P))
      = (let cleaned2 :=
          match searchCodeStart (joinNl ((ch :: Ct) ++ P)) with
          | some i => if 0 < i then trim ((joinNl ((ch :: Ct) ++ P)).drop i)
                      else joinNl ((ch :: Ct) ++ P)
          | none => joinNl ((ch :: Ct) ++ P)
        match lastCodeIdx (splitNl cleaned2) with
        | some j => trim (joinNl ((splitNl cleaned2).take (j + 1)))
        | none => trim cleaned2) := by
    rw [cleanGeneratedCode, removeFences_id _ hff]
  rw [hdef]
  simp only [hsearch]
  rw [if_neg (by omega)]
  rw [hsplit]
  simp only [hlci]
  rw [htake, htrim]

/-- C1 (amended): the Output Sanitizer never alters interior code lines of a
fence-free response: (i) its output is a contiguous slice of the input,
(ii) every line strictly between the output's first and last line is a
consecutive verbatim line of the input, and (iii) a response consisting of
code lines (beginning at the first character with a recognized construct,
the last code line ending in non-whitespace) followed by trailing prose
lines — empty, line comments, or beginning with This/Required/Note:/The —
has exactly that trailing prose removed, the code preserved character for
character.  (Responses carrying fence markers inside interior code lines are
altered; see the counterexample.) -/
theorem c1_sanitizer_preserves_interior :
    (∀ s : Str, fenceFree s → cleanGeneratedCode s <:+: s) ∧
    (∀ s : Str, fenceFree s →
      ((splitNl (cleanGeneratedCode s)).tail).dropLast <:+: splitNl s) ∧
    (∀ (C P : List Str) (lastc : Char), C ≠ [] → (∀ l ∈ C ++ P, '\n' ∉ l) →
      fenceFree (joinNl (C ++ P)) → startsKw (C.headD []) = true →
      lineTest (lastD0 C) = true → (∀ q ∈ P, lineTest q = false) →
      (lastD0 C).getLast? = some lastc → isWs lastc = false →
      cleanGeneratedCode (joinNl (C ++ P)) = joinNl C) :=
  ⟨cleanGeneratedCode_slice, cleanGeneratedCode_interior, cleanGeneratedCode_trailing⟩

set_option maxRecDepth 16384

/-- Witness for C1: a fence-free response whose trailing prose (an empty
line and a `This component renders...` line) is stripped while the two code
lines survive character for character. -/
theorem c1_witness :
    (cleanGeneratedCode ("import x;\nexport y;".toList) <:+: "import x;\nexport y;".toList) ∧
    cleanGeneratedCode (joinNl (["import x from 'y';".toList, "export default x;".toList]
        ++ ["".toList, "This component renders a card.".toList]))
      = joinNl ["import x from 'y';".toList, "export default x;".toList] :=
  ⟨c1_sanitizer_preserves_interior.1 ("import x;\nexport y;".toList) (by decide),
   c1_sanitizer_preserves_interior.2.2
     ["import x from 'y';".toList, "export default x;".toList]
     ["".toList, "This component renders a card.".toList] ';'
     (by decide) (by decide) (by decide) (by decide) (by decide) (by decide)
     (by decide) (by decide)⟩

/-- Counterexample to C1 as stated: a response whose interior code line
holds a fence marker inside a string literal has that line altered — the
global fence-removal regex deletes the marker, so the interior line does not
appear verbatim in the output. -/
theorem c1_counterexample :
    cleanGeneratedCode c1Input
      = "import a from 'b';\nconst s = \"\";\nexport default x;".toList ∧
    (splitNl c1Input)[1]? = some ("const s = \"```js\";".toList) ∧
    ("const s = \"```js\";".toList ∉ splitNl (cleanGeneratedCode c1Input)) := by
  refine ⟨?_, by decide, by decide⟩
  decide

end FigmaToReact
